import Mathlib

/-!
# Verification of the agentic-tutor agent core

A shallow embedding, in Lean 4, of the core components of the
`agentic-tutor` repository:

* the JSON value model and `parse_json_response`
  (`src/agent/utils/response_parser.py`),
* the research planner's confidence score
  (`agent/research_planner.py`),
* the quality gate retry protocol
  (`learning-coach-mcp/src/rag/evaluator.py`),
* the tool registry boundary (`agent/tools.py`),
* the step executor and the bounded agent control loop
  (`src/agent/controllers/step_executor.py`,
  `src/agent/controllers/agent_controller.py`).

Python strings that are parsed character by character are modelled as
`List Char`; Python dicts as association lists with unique keys (in
insertion order, which is Python dict semantics); machine floats as exact
rationals `ℚ` (a comment at each use justifies why the float rounding of
the source cannot change the stated results); fallible Python code as
`Except PyErr`.  External collaborators (LLM client, database-backed tool
implementations, the RAGAS metric internals) are oracles: universally
quantified functions supplied to the embedded code, exactly the interfaces
the source calls.
-/

/-- A Python exception in the model: its message string. -/
abbrev PyErr := String

/-- JSON values (and, simultaneously, the Python dict/list/str/int/bool/None
values that the agent passes around).  Strings are `List Char` so that the
character-level parsing of `response_parser.py` can be modelled directly.
Numbers are modelled as integers: every number appearing in the verified
code paths is an integer, and nothing below depends on float parsing.
Objects are association lists in insertion order with unique keys, which is
exactly Python dict semantics. -/
inductive Json where
  | null : Json
  | bool (b : Bool) : Json
  | num (n : Int) : Json
  | str (s : List Char) : Json
  | arr (elems : List Json) : Json
  | obj (fields : List (List Char × Json)) : Json

/-- Build a JSON string from a Lean string literal. -/
def jstr (s : String) : Json := Json.str s.toList

mutual

/-- Structural equality of JSON values: Python `==` on the modelled values. -/
def jsonBeq : Json → Json → Bool
  | Json.null, Json.null => true
  | Json.bool a, Json.bool b => a == b
  | Json.num a, Json.num b => a == b
  | Json.str a, Json.str b => a == b
  | Json.arr a, Json.arr b => jsonListBeq a b
  | Json.obj a, Json.obj b => jsonFieldsBeq a b
  | _, _ => false

/-- Elementwise equality of JSON arrays. -/
def jsonListBeq : List Json → List Json → Bool
  | [], [] => true
  | x :: xs, y :: ys => jsonBeq x y && jsonListBeq xs ys
  | _, _ => false

/-- Fieldwise equality of JSON objects (Python dicts compare equal iff they
hold the same key-value pairs; for the insertion-ordered values the agent
builds, fieldwise comparison is what the code's `==` checks amount to). -/
def jsonFieldsBeq : List (List Char × Json) → List (List Char × Json) → Bool
  | [], [] => true
  | (k1, v1) :: xs, (k2, v2) :: ys => k1 == k2 && jsonBeq v1 v2 && jsonFieldsBeq xs ys
  | _, _ => false

end

/-- First value bound to `k` in an association list (Python dict lookup). -/
def alookup (k : List Char) : List (List Char × Json) → Option Json
  | [] => none
  | (k', v) :: rest => if k' = k then some v else alookup k rest

/-- Python `d[k] = v` on a dict: replace in place, else append. -/
def ainsert (k : List Char) (v : Json) : List (List Char × Json) → List (List Char × Json)
  | [] => [(k, v)]
  | (k', v') :: rest => if k' = k then (k, v) :: rest else (k', v') :: ainsert k v rest

/-- Python `d.get(k)`: `AttributeError` on non-dicts, `None`-as-`none` when
the key is missing. -/
def pyGet (j : Json) (k : String) : Except PyErr (Option Json) :=
  match j with
  | Json.obj fields => Except.ok (alookup k.toList fields)
  | _ => Except.error "AttributeError: object has no attribute get"

/-- Python `d.get(k, default)` on a value already known to be a dict. -/
def objGetD (fields : List (List Char × Json)) (k : String) (dflt : Json) : Json :=
  (alookup k.toList fields).getD dflt

section ConfidenceScore

/-- `ContentGap` dataclass, from `agent/research_planner.py`. -/
structure ContentGap where
  topic : String
  reason : String
  priority : String
  suggested_query : String

/-- Python `round(q, 2)`.  Modelled as round-half-up on exact rationals.
Python rounds floats half-to-even, but every value this model feeds to
`round2` is an exact integer multiple of `1/100` (see
`round2_eq_self_of_hundredth`), on which every rounding convention is the
identity, so the convention chosen here is immaterial. -/
def round2 (q : ℚ) : ℚ := (round (q * 100) : ℤ) / 100

/-- `ResearchPlanner._calculate_confidence_score`, from
`agent/research_planner.py` lines 358-391.  The source computes with IEEE
doubles; the model uses exact rationals.  All reachable exact results are
integer multiples of `1/100` at distance ≥ `1/200` from every other
2-decimal value, while the accumulated double rounding error of the
source's few operations is below `10^-10`, so the 2-decimal result is the
same. -/
def _calculate_confidence_score (db_results_count : ℕ) (coverage_gaps : List ContentGap) : ℚ :=
  let base_score : ℚ :=
    if db_results_count ≥ 10 then 1.0
    else if db_results_count ≥ 5 then 0.8
    else if db_results_count ≥ 3 then 0.6
    else if db_results_count ≥ 1 then 0.4
    else 0.0
  let gap_penalty : ℚ := (coverage_gaps.length : ℚ) * 0.15
  let score : ℚ := max 0.0 (base_score - gap_penalty)
  round2 score

/-- The step function of the spec sentence for C5: "0 results → 0.0; 1–2 →
0.4; 3–4 → 0.6; 5–9 → 0.8; ≥10 → 1.0". -/
def specBase (n : ℕ) : ℚ :=
  if n = 0 then 0.0
  else if n ≤ 2 then 0.4
  else if n ≤ 4 then 0.6
  else if n ≤ 9 then 0.8
  else 1.0

/-- The formula the claim C5 states: `round(max(0.0, base - 0.15*gaps), 2)`. -/
def specConfidence (n : ℕ) (gap_count : ℕ) : ℚ :=
  round2 (max 0.0 (specBase n - 0.15 * (gap_count : ℚ)))

end ConfidenceScore

section PyStringOps

/-- The characters of a Lean string literal (Python strings are modelled as
`List Char`). -/
def chars (s : String) : List Char := s.toList

/-- Does `pat` lead the list?  (Building block for Python `in` and
`split` on strings.) -/
def hasLead : List Char → List Char → Bool
  | [], _ => true
  | _ :: _, [] => false
  | p :: ps, c :: cs => p == c && hasLead ps cs

/-- Python `pat in s` for strings: `pat` occurs contiguously in `s`. -/
def containsSub (pat : List Char) : List Char → Bool
  | [] => hasLead pat []
  | c :: cs => hasLead pat (c :: cs) || containsSub pat cs

/-- Worker for Python `s.split(sep)`: greedy left-to-right scan cutting at
each non-overlapping occurrence of `sep`.  The `max 1` only guards an empty
separator (Python raises there); every separator used below is non-empty,
where `max 1 sep.length = sep.length`.  The fuel argument makes the
recursion structural; each step consumes at least one character, so
`s.length + 1` fuel always suffices. -/
def splitGo (sep : List Char) : ℕ → List Char → List Char → List (List Char)
  | 0, s, acc => [acc.reverse ++ s]
  | fuel + 1, s, acc =>
    match s with
    | [] => [acc.reverse]
    | c :: cs =>
      if hasLead sep (c :: cs) then
        acc.reverse :: splitGo sep fuel ((c :: cs).drop (max 1 sep.length)) []
      else
        splitGo sep fuel cs (c :: acc)

/-- Python `s.split(sep)` for non-empty `sep`. -/
def splitOnSub (sep s : List Char) : List (List Char) := splitGo sep (s.length + 1) s []

/-- The whitespace characters Python `str.strip` removes from the strings
the agent handles (ASCII whitespace). -/
def isPySpace (c : Char) : Bool :=
  c == ' ' || c == '\t' || c == '\n' || c == '\r' || c == '\x0b' || c == '\x0c'

/-- Python `s.strip()`. -/
def pyStrip (s : List Char) : List Char :=
  ((s.dropWhile isPySpace).reverse.dropWhile isPySpace).reverse

end PyStringOps

section JsonText

/-- Decimal digits of `n`, most significant first (`"0"` for zero). -/
def digitChars (n : ℕ) : List Char :=
  if n = 0 then ['0'] else (Nat.digits 10 n).reverse.map (fun d => Char.ofNat (d + 48))

/-- The decimal rendering `json.dumps` gives an integer. -/
def intChars (i : ℤ) : List Char :=
  if i < 0 then '-' :: digitChars i.natAbs else digitChars i.natAbs

/-- JSON string escaping as `json.dumps` performs it on the characters the
round-trip theorem quantifies over (printable ASCII plus `\n`, `\t`,
`\r`); `json.dumps` escapes the remaining control and non-ASCII characters
as `\uXXXX`, which `wfJson` excludes from the model. -/
def escChar (c : Char) : List Char :=
  if c = '"' then ['\\', '"']
  else if c = '\\' then ['\\', '\\']
  else if c = '\n' then ['\\', 'n']
  else if c = '\t' then ['\\', 't']
  else if c = '\r' then ['\\', 'r']
  else [c]

/-- Escape a whole string body. -/
def escape (s : List Char) : List Char := (s.map escChar).flatten

mutual

/-- `json.dumps` with its default separators (`", "` and `": "`), on the
modelled JSON fragment. -/
def render : Json → List Char
  | Json.null => chars "null"
  | Json.bool true => chars "true"
  | Json.bool false => chars "false"
  | Json.num i => intChars i
  | Json.str s => '"' :: (escape s ++ ['"'])
  | Json.arr es => '[' :: (renderElems es ++ [']'])
  | Json.obj fs => '{' :: (renderFields fs ++ ['}'])

/-- Array elements joined by `", "`. -/
def renderElems : List Json → List Char
  | [] => []
  | [x] => render x
  | x :: y :: rest => render x ++ chars ", " ++ renderElems (y :: rest)

/-- Object fields joined by `", "`, each `"key": value`. -/
def renderFields : List (List Char × Json) → List Char
  | [] => []
  | [(k, v)] => '"' :: (escape k ++ ['"']) ++ chars ": " ++ render v
  | (k, v) :: f :: rest =>
      '"' :: (escape k ++ ['"']) ++ chars ": " ++ render v ++ chars ", "
        ++ renderFields (f :: rest)

end

/-- The whitespace `json.loads` skips between tokens. -/
def isJsonWs (c : Char) : Bool := c == ' ' || c == '\t' || c == '\n' || c == '\r'

/-- Skip inter-token whitespace. -/
def skipWs (s : List Char) : List Char := s.dropWhile isJsonWs

/-- Numeric value of a digit run, most significant first. -/
def natOfChars (ds : List Char) : ℕ := ds.foldl (fun a c => a * 10 + (c.toNat - 48)) 0

/-- Unescape a backslash escape (the model omits `\uXXXX`). -/
def unescChar (e : Char) : Option Char :=
  if e = '"' then some '"'
  else if e = '\\' then some '\\'
  else if e = '/' then some '/'
  else if e = 'n' then some '\n'
  else if e = 't' then some '\t'
  else if e = 'r' then some '\r'
  else if e = 'b' then some '\x08'
  else if e = 'f' then some '\x0c'
  else none

/-- Parse a JSON string body after the opening quote, accumulating in
reverse; returns the body and the remainder after the closing quote. -/
def parseStrGo : List Char → List Char → Option (List Char × List Char)
  | [], _ => none
  | c :: rest, acc =>
    if c = '"' then some (acc.reverse, rest)
    else if c = '\\' then
      match rest with
      | [] => none
      | e :: rest' =>
        match unescChar e with
        | some d => parseStrGo rest' (d :: acc)
        | none => none
    else parseStrGo rest (c :: acc)
termination_by structural s _ => s

mutual

/-- A model of `json.loads` value parsing, fuelled.  Compared with CPython's
parser it is more permissive on integer syntax (leading zeros) and does not
model floats, exponents or `\uXXXX` escapes; it is exact on everything
`render` produces. -/
def parseVal : ℕ → List Char → Option (Json × List Char)
  | 0, _ => none
  | fuel + 1, s =>
    match skipWs s with
    | [] => none
    | c :: rest =>
      if c = '{' then
        match skipWs rest with
        | [] => parseObjItems fuel [] []
        | c' :: rest' =>
          if c' = '}' then some (Json.obj [], rest')
          else parseObjItems fuel (c' :: rest') []
      else if c = '[' then
        match skipWs rest with
        | [] => parseArrItems fuel [] []
        | c' :: rest' =>
          if c' = ']' then some (Json.arr [], rest')
          else parseArrItems fuel (c' :: rest') []
      else if c = '"' then
        match parseStrGo rest [] with
        | some (t, rest') => some (Json.str t, rest')
        | none => none
      else if c = 't' then
        if hasLead (chars "rue") rest then some (Json.bool true, rest.drop 3) else none
      else if c = 'f' then
        if hasLead (chars "alse") rest then some (Json.bool false, rest.drop 4) else none
      else if c = 'n' then
        if hasLead (chars "ull") rest then some (Json.null, rest.drop 3) else none
      else if c = '-' then
        match List.span Char.isDigit rest with
        | (ds, rest') =>
          if ds.isEmpty then none else some (Json.num (-(natOfChars ds : ℤ)), rest')
      else if c.isDigit then
        match List.span Char.isDigit (c :: rest) with
        | (ds, rest') => some (Json.num (natOfChars ds), rest')
      else none

/-- Items of a non-empty array, first value not yet consumed. -/
def parseArrItems : ℕ → List Char → List Json → Option (Json × List Char)
  | 0, _, _ => none
  | fuel + 1, s, acc =>
    match parseVal fuel s with
    | none => none
    | some (v, rest) =>
      match skipWs rest with
      | ',' :: rest' => parseArrItems fuel (skipWs rest') (v :: acc)
      | ']' :: rest' => some (Json.arr (v :: acc).reverse, rest')
      | _ => none

/-- Fields of a non-empty object, cursor at an opening key quote. -/
def parseObjItems : ℕ → List Char → List (List Char × Json) → Option (Json × List Char)
  | 0, _, _ => none
  | fuel + 1, s, acc =>
    match s with
    | '"' :: rest =>
      match parseStrGo rest [] with
      | none => none
      | some (k, rest1) =>
        match skipWs rest1 with
        | ':' :: rest2 =>
          match parseVal fuel rest2 with
          | none => none
          | some (v, rest3) =>
            match skipWs rest3 with
            | ',' :: rest4 => parseObjItems fuel (skipWs rest4) ((k, v) :: acc)
            | '}' :: rest4 => some (Json.obj ((k, v) :: acc).reverse, rest4)
            | _ => none
        | _ => none
    | _ => none

end

/-- `json.loads` on a whole document: one value, then only whitespace.  The
fuel `2 * s.length + 2` dominates the parser's needs on any input it can
accept (`jsize_le_render`), so the fuel is a non-observable artifact. -/
def parseJson (s : List Char) : Option Json :=
  match parseVal (2 * s.length + 2) s with
  | some (v, rest) => if (skipWs rest).isEmpty then some v else none
  | none => none

/-- The fence-peeling step of `parse_json_response`
(`src/agent/utils/response_parser.py` lines 27-31), exactly as the Python
`split` calls perform it. -/
def extractFenced (response_text : List Char) : List Char :=
  let fenceJ := chars "```json"
  let fence := chars "```"
  if containsSub fenceJ response_text then
    (splitOnSub fence ((splitOnSub fenceJ response_text).getD 1 [])).headD []
  else if containsSub fence response_text then
    (splitOnSub fence ((splitOnSub fence response_text).getD 1 [])).headD []
  else response_text

/-- `parse_json_response`, from `src/agent/utils/response_parser.py` lines
14-38: peel a markdown code fence, then `json.loads` the stripped body; a
parse failure raises `ValueError`. -/
def parse_json_response (response_text : List Char) : Except PyErr Json :=
  match parseJson (pyStrip (extractFenced response_text)) with
  | some j => Except.ok j
  | none => Except.error "Invalid JSON response from LLM"

/-- A markdown ```` ```json ```` fence around a body (the claim C7's "wrapped
in a markdown code fence"). -/
def wrapJsonFence (body : List Char) : List Char :=
  chars "```json" ++ '\n' :: body ++ '\n' :: chars "```"

/-- A plain ```` ``` ```` fence around a body. -/
def wrapFence (body : List Char) : List Char :=
  chars "```" ++ '\n' :: body ++ '\n' :: chars "```"

/-- Characters `json.dumps` renders without a `\uXXXX` escape in the model:
printable ASCII, `\n`, `\t`, `\r`. -/
def wfChars (s : List Char) : Bool :=
  s.all (fun c => (32 ≤ c.toNat && c.toNat ≤ 126) || c == '\n' || c == '\t' || c == '\r')

/-- No duplicate keys. -/
def nodupKeys : List (List Char) → Bool
  | [] => true
  | k :: ks => !ks.contains k && nodupKeys ks

mutual

/-- The JSON values on which the model's `render` agrees with `json.dumps`
and the model's parser with `json.loads`: strings (keys included) drawn
from printable ASCII plus `\n`, `\t`, `\r`, and objects with distinct keys
(a Python dict cannot carry duplicates, and `json.loads` would keep only
the last). -/
def wfJson : Json → Bool
  | Json.null => true
  | Json.bool _ => true
  | Json.num _ => true
  | Json.str s => wfChars s
  | Json.arr es => wfList es
  | Json.obj fs => wfFields fs && nodupKeys (fs.map Prod.fst)

/-- All elements well-formed. -/
def wfList : List Json → Bool
  | [] => true
  | x :: xs => wfJson x && wfList xs

/-- All keys and values well-formed. -/
def wfFields : List (List Char × Json) → Bool
  | [] => true
  | (k, v) :: fs => wfChars k && wfJson v && wfFields fs

end

/-- The backtick character (code 96). -/
def btChar : Char := Char.ofNat 96

/-- No backtick anywhere in the string. -/
def noBt (s : List Char) : Bool := s.all (fun c => !(c == btChar))

mutual

/-- Fuel bound for the parser on `render` output: at least one unit of fuel
is consumed entering each value, plus one per element/field step. -/
def jsize : Json → ℕ
  | Json.null => 1
  | Json.bool _ => 1
  | Json.num _ => 1
  | Json.str _ => 1
  | Json.arr es => 2 + lsize es
  | Json.obj fs => 2 + fsize fs

/-- Fuel bound for array items. -/
def lsize : List Json → ℕ
  | [] => 0
  | x :: xs => jsize x + 2 + lsize xs

/-- Fuel bound for object fields. -/
def fsize : List (List Char × Json) → ℕ
  | [] => 0
  | (_, v) :: fs => jsize v + 2 + fsize fs

end

section QualityGateModel

/-- RAGAS score vector (`evaluator.py`); exact rationals for the floats. -/
structure RagasScores where
  faithfulness : ℚ
  context_precision : ℚ
  context_recall : ℚ
  average : ℚ

/-- `RAGASEvaluator.passes_quality_gate`, `evaluator.py` lines 227-244:
every one of the three required metrics must reach `min_score`. -/
def passes_quality_gate (min_score : ℚ) (scores : RagasScores) : Bool :=
  decide (min_score ≤ scores.faithfulness)
    && decide (min_score ≤ scores.context_precision)
    && decide (min_score ≤ scores.context_recall)

/-- The placeholder zero scores the timeout path builds,
`evaluator.py` lines 305-310. -/
def zeroScores : RagasScores :=
  { faithfulness := 0.0, context_precision := 0.0, context_recall := 0.0, average := 0.0 }

/-- One `synthesizer.synthesize_insights` invocation's arguments, exactly as
`apply_gate` passes them (`evaluator.py` lines 340-346). -/
structure SynthCall where
  retrieved_chunks : List Json
  learning_context : Json
  query : List Char
  num_insights : ℕ
  stricter : Bool

/-- The oracles `apply_gate` consumes: the wall clock
(`datetime.now().timestamp()`, indexed by how many readings were taken),
the RAGAS evaluator (indexed by evaluation count; query and chunks are
fixed for the whole gate run, so the insights argument is the only varying
input), and the synthesizer (indexed by call count). -/
structure GateEnv where
  clock : ℕ → ℚ
  evalDigest : ℕ → Json → RagasScores
  synth : ℕ → SynthCall → Json

/-- Instrumentation: how many clock readings and evaluations happened, and
the trace of synthesizer calls. -/
structure GateState where
  clockCalls : ℕ
  evalCalls : ℕ
  synthCalls : List SynthCall

/-- The `QualityGate` configuration (`evaluator.py` lines 250-266);
`timeout_seconds = timeout_minutes * 60`. -/
structure QualityGateM where
  max_retries : ℕ
  timeout_seconds : ℚ
  min_score : ℚ

/-- The fixed per-run arguments of `apply_gate`. -/
structure GateArgs where
  query : List Char
  retrieved_chunks : List Json
  learning_context : Json

/-- Python `len(x)`: length of a list/str/dict, `TypeError` otherwise. -/
def pyLen (j : Json) : Except PyErr ℕ :=
  match j with
  | Json.arr l => Except.ok l.length
  | Json.str s => Except.ok s.length
  | Json.obj f => Except.ok f.length
  | _ => Except.error "TypeError: object has no len()"

/-- Python `x[k]` for a string key: dict lookup raising `KeyError`,
`TypeError` on non-dicts. -/
def pyGetItem (j : Json) (k : String) : Except PyErr Json :=
  match j with
  | Json.obj fields =>
    match alookup k.toList fields with
    | some v => Except.ok v
    | none => Except.error ("KeyError: " ++ k)
  | _ => Except.error "TypeError: object is not subscriptable"

/-- `QualityGate.apply_gate` after the `start_time` default has been
resolved (`evaluator.py` lines 297-368): check the timeout, evaluate,
pass / retry with stricter synthesis / give up.  The fuel makes the
recursion structural; `max_retries + 1 - retry_count` always suffices
because each recursive call increments `retry_count` under the guard
`retry_count < max_retries`, so the fuel-0 branch is unreachable from
`QualityGate_apply_gate`. -/
def apply_gate_go (env : GateEnv) (gate : QualityGateM) (args : GateArgs) :
    ℕ → Json → ℕ → ℚ → GateState →
      Except PyErr (Json × RagasScores × Bool) × GateState
  | 0, _, _, _, st => (Except.error "model fuel exhausted", st)
  | fuel + 1, insights, retry_count, start_time, st =>
    let now := env.clock st.clockCalls
    let st1 : GateState := { st with clockCalls := st.clockCalls + 1 }
    if now - start_time > gate.timeout_seconds then
      (Except.ok (insights, zeroScores, false), st1)
    else
      let scores := env.evalDigest st1.evalCalls insights
      let st2 : GateState := { st1 with evalCalls := st1.evalCalls + 1 }
      if passes_quality_gate gate.min_score scores then
        (Except.ok (insights, scores, true), st2)
      else if retry_count < gate.max_retries then
        match pyLen insights with
        | Except.error e => (Except.error e, st2)
        | Except.ok n =>
          let call : SynthCall :=
            { retrieved_chunks := args.retrieved_chunks
              learning_context := args.learning_context
              query := args.query
              num_insights := n
              stricter := true }
          let retry_result := env.synth st2.synthCalls.length call
          let st3 : GateState := { st2 with synthCalls := st2.synthCalls ++ [call] }
          match pyGetItem retry_result "insights" with
          | Except.error e => (Except.error e, st3)
          | Except.ok retry_insights =>
            apply_gate_go env gate args fuel retry_insights (retry_count + 1) start_time st3
      else
        (Except.ok (insights, scores, false), st2)

/-- `QualityGate.apply_gate`, `evaluator.py` lines 268-368, with the
`start_time is None` default resolution of lines 293-295: a fresh clock
reading becomes the start time on the first entry. -/
def apply_gate (env : GateEnv) (gate : QualityGateM) (args : GateArgs) (fuel : ℕ)
    (insights : Json) (retry_count : ℕ) (start_time : Option ℚ) (st : GateState) :
    Except PyErr (Json × RagasScores × Bool) × GateState :=
  match start_time with
  | some t => apply_gate_go env gate args fuel insights retry_count t st
  | none =>
    apply_gate_go env gate args fuel insights retry_count (env.clock st.clockCalls)
      { st with clockCalls := st.clockCalls + 1 }

/-- The external entry point: `retry_count = 0`, `start_time = None`, a
fresh instrumentation state. -/
def QualityGate_apply_gate (env : GateEnv) (gate : QualityGateM) (args : GateArgs)
    (insights : Json) : Except PyErr (Json × RagasScores × Bool) × GateState :=
  apply_gate env gate args (gate.max_retries + 1) insights 0 none
    { clockCalls := 0, evalCalls := 0, synthCalls := [] }

end QualityGateModel

section ToolRegistryModel

/-- The tool names registered in `ToolRegistry.__init__`
(`agent/tools.py` lines 50-58). -/
def toolNames : List (List Char) :=
  [chars "get-user-context", chars "search-content", chars "generate-digest",
   chars "search-past-insights", chars "sync-progress", chars "web-search",
   chars "analyze-content-coverage"]

/-- The f-string rendering of a value in the `Unknown tool` message.  Python
prints `None`/`True`/`False` and the raw string; container renderings are
approximated by the JSON renderer (no claim inspects them). -/
def pyShow (j : Json) : List Char :=
  match j with
  | Json.null => chars "None"
  | Json.bool true => chars "True"
  | Json.bool false => chars "False"
  | Json.str s => s
  | j => render j

/-- The `ValueError` message of `execute_tool` for an unknown name
(`agent/tools.py` lines 307-309). -/
def unknownToolMsg (tool_name : Json) : PyErr :=
  "Unknown tool: " ++ String.mk (pyShow tool_name)
    ++ ". Available: get-user-context, search-content, generate-digest, "
    ++ "search-past-insights, sync-progress, web-search, analyze-content-coverage"

/-- `ToolRegistry.execute_tool`, `agent/tools.py` lines 293-333.  The
`_execute_*` bodies hit Supabase/OpenAI and are external collaborators
(spec §1); they are the `impl` oracle.  An unknown name (any non-string
included: Python dict membership is simply `False` for them) raises
`ValueError` before the `try`; the `try` wraps the dispatch, so any
exception from an implementation is converted to
`{"error": str(e), "tool": tool_name}`. -/
def execute_tool (impl : List Char → Json → Except PyErr Json)
    (tool_name : Json) (args : Json) : Except PyErr Json :=
  match tool_name with
  | Json.str s =>
    if toolNames.contains s then
      match impl s args with
      | Except.ok r => Except.ok r
      | Except.error e =>
        Except.ok (Json.obj [(chars "error", Json.str e.toList),
          (chars "tool", Json.str s)])
    else Except.error (unknownToolMsg (Json.str s))
  | t => Except.error (unknownToolMsg t)

end ToolRegistryModel

section StepExecutorModel

/-- The synthetic fallback plan of `StepExecutor.plan`
(`step_executor.py` lines 193-198). -/
def plan_fallback (e : PyErr) : Json :=
  Json.obj [(chars "action_type", jstr "COMPLETE"),
    (chars "reasoning", Json.str (("Error in planning: " ++ e).toList)),
    (chars "output", Json.obj [(chars "error", Json.str e.toList),
      (chars "type", jstr "planning_error")])]

/-- The parsing core of `StepExecutor.plan` (`step_executor.py` lines
157-198): strip the LLM text, parse it, and degrade any exception — LLM
call failure or `ValueError` from the parser — to the synthetic COMPLETE
plan.  The prompt construction (lines 135-155) only feeds the LLM oracle
and cannot raise, so it is absorbed into the oracle. -/
def step_plan (llmResponse : Except PyErr (List Char)) : Json :=
  match (do
      let txt ← llmResponse
      parse_json_response (pyStrip txt) : Except PyErr Json) with
  | Except.ok p => p
  | Except.error e => plan_fallback e

/-- Python `x in y` for a string key (dict key test, list membership,
substring; `TypeError` otherwise). -/
def pyContains (j : Json) (k : String) : Except PyErr Bool :=
  match j with
  | Json.obj fields => Except.ok (alookup k.toList fields).isSome
  | Json.arr l => Except.ok (l.any (fun x => jsonBeq x (jstr k)))
  | Json.str s => Except.ok (containsSub k.toList s)
  | _ => Except.error "TypeError: argument is not iterable"

/-- Python `x[:n]` (`TypeError` on unsliceables). -/
def pySlice (j : Json) (n : ℕ) : Except PyErr Json :=
  match j with
  | Json.arr l => Except.ok (Json.arr (l.take n))
  | Json.str s => Except.ok (Json.str (s.take n))
  | _ => Except.error "TypeError: object is not subscriptable by slice"

/-- Python iteration over a value (list elements, string characters as
1-character strings, dict keys; `TypeError` otherwise). -/
def pyIterList (j : Json) : Except PyErr (List Json) :=
  match j with
  | Json.arr l => Except.ok l
  | Json.str s => Except.ok (s.map (fun c => Json.str [c]))
  | Json.obj f => Except.ok (f.map (fun kv => Json.str kv.1))
  | _ => Except.error "TypeError: object is not iterable"

/-- `d.get(k, default)` through a `Json` known (or defaulted) to be a dict:
non-dicts yield the default — call sites only use it where the source has
already established dict-ness. -/
def jget (j : Json) (k : String) (d : Json) : Json :=
  match j with
  | Json.obj f => objGetD f k d
  | _ => d

/-- Is this optional value the given string? (Python `x == "s"` where `x`
may be `None`.) -/
def optIsStr (a : Option Json) (s : String) : Bool :=
  match a with
  | some v => jsonBeq v (jstr s)
  | none => false

/-- `summarize_result`, `response_parser.py` lines 41-84, including every
place it can raise (`len`/slices/`.get` on unexpected shapes). -/
def summarize_result (result : Json) : Except PyErr Json := do
  let s0 : List (List Char × Json) := []
  let he ← pyContains result "error"
  let s1 ← if he then do
      let v ← pyGetItem result "error"
      pure (ainsert (chars "error") v s0)
    else pure s0
  let hr ← pyContains result "results"
  let s2 ← if hr then do
      let v ← pyGetItem result "results"
      let n ← pyLen v
      let pv ← pySlice v 2
      pure (ainsert (chars "results_preview") pv
        (ainsert (chars "results_count") (Json.num n) s1))
    else pure s1
  let hi ← pyContains result "insights"
  let s3 ← if hi then do
      let v ← pyGetItem result "insights"
      let n ← pyLen v
      let pv ← pySlice v 2
      let items ← pyIterList pv
      let previews ← items.mapM (fun i =>
        match i with
        | Json.obj fi =>
          Except.ok (Json.obj [(chars "title", objGetD fi "title" (jstr ""))])
        | _ => Except.error "AttributeError: object has no attribute get")
      pure (ainsert (chars "insights_preview") (Json.arr previews)
        (ainsert (chars "insights_count") (Json.num n) s2))
    else pure s2
  let hg ← pyContains result "ragas_scores"
  let s4 ← if hg then do
      let v ← pyGetItem result "ragas_scores"
      pure (ainsert (chars "ragas_scores") v s3)
    else pure s3
  let hw ← pyContains result "week"
  let s5 ← if hw then do
      let v ← pyGetItem result "week"
      pure (ainsert (chars "week") v s4)
    else pure s4
  let ht ← pyContains result "topics"
  let s6 ← if ht then do
      let v ← pyGetItem result "topics"
      pure (ainsert (chars "topics") v s5)
    else pure s5
  let s7 := if s6.isEmpty
    then ainsert (chars "preview") (Json.str ((render result).take 500)) s6
    else s6
  return Json.obj s7

end StepExecutorModel

section ControllerModel

/-- The per-run mutable `context` dict of `AgentController.run`
(`agent_controller.py` line 101), with its optional keys made explicit. -/
structure Ctx where
  user_id : List Char
  user_context : Option Json
  iteration_history : List Json
  search_results : Option (List Json)
  last_reflection : Option (List Char)

/-- The `AgentLogger` session log (phase names in order), the trace of
registry invocations `(phase, iteration, tool name)` — instrumentation for
the claims about tool execution — and nothing else. -/
structure LogState where
  logs : List String
  toolTrace : List (String × ℕ × Json)

def logPhase (phase : String) (ls : LogState) : LogState :=
  { ls with logs := ls.logs ++ [phase] }

def traceTool (phase : String) (iter : ℕ) (name : Json) (ls : LogState) : LogState :=
  { ls with toolTrace := ls.toolTrace ++ [(phase, iter, name)] }

/-- The external world of one agent run: the planning/reflection/partial
LLM responses (the prompts are pure data fed to the LLM; since every claim
quantifies over all LLM behaviour, indexing responses by iteration is an
equivalent presentation), and the tool implementations behind the
registry. -/
structure AgentEnv where
  llmPlan : ℕ → Except PyErr (List Char)
  llmReflect : ℕ → Except PyErr (List Char)
  llmPartial : Except PyErr (List Char)
  impl : List Char → Json → Except PyErr Json

/-- `StepExecutor.sense`, `step_executor.py` lines 65-112: fetch
`get-user-context` through the registry; any failure is swallowed and the
context returned unchanged. -/
def exec_sense (env : AgentEnv) (user_id : List Char) (context : Ctx) (iteration : ℕ)
    (ls : LogState) : Ctx × LogState :=
  let ls := traceTool "SENSE" iteration (jstr "get-user-context") ls
  match execute_tool env.impl (jstr "get-user-context")
      (Json.obj [(chars "user_id", Json.str user_id)]) with
  | Except.ok uc => ({ context with user_context := some uc }, logPhase "SENSE" ls)
  | Except.error _ => (context, logPhase "SENSE" ls)

/-- `StepExecutor.plan`, logging the PLAN phase on success and failure
alike (`step_executor.py` lines 175-198). -/
def exec_plan (env : AgentEnv) (iteration : ℕ) (ls : LogState) : Json × LogState :=
  (step_plan (env.llmPlan iteration), logPhase "PLAN" ls)

/-- `StepExecutor.act`, `step_executor.py` lines 200-243.  The
`plan.get("action_type")` outside the `try` can raise (non-dict plans);
registry exceptions are caught and converted to
`{"error", "tool", "args"}`. -/
def exec_act (env : AgentEnv) (plan : Json) (iteration : ℕ) (ls : LogState) :
    Except PyErr Json × LogState :=
  match plan with
  | Json.obj fields =>
    let a := alookup (chars "action_type") fields
    if ¬optIsStr a "TOOL_CALL" then
      (Except.ok (Json.obj [(chars "status", jstr "skipped"),
        (chars "reason", Json.str (chars "Action type is "
          ++ (match a with | some v => pyShow v | none => chars "None")))]), ls)
    else
      let tool_name := (alookup (chars "tool") fields).getD Json.null
      let args := (alookup (chars "args") fields).getD (Json.obj [])
      let ls := traceTool "ACT" iteration tool_name ls
      match execute_tool env.impl tool_name args with
      | Except.ok r => (Except.ok r, logPhase "ACT" ls)
      | Except.error e =>
        (Except.ok (Json.obj [(chars "error", Json.str e.toList),
          (chars "tool", tool_name), (chars "args", args)]), logPhase "ACT" ls)
  | _ => (Except.error "AttributeError: object has no attribute get", ls)

/-- `StepExecutor.observe`, `step_executor.py` lines 245-276: classify by
the presence of an `error` key and log a size-bounded summary; the
summary construction itself can raise on unexpected result shapes. -/
def exec_observe (plan result : Json) (_iteration : ℕ) (ls : LogState) :
    Except PyErr Unit × LogState :=
  match (do
      let he ← pyContains result "error"
      let _ ← pyGet plan "tool"
      let _ ← summarize_result result
      if he then do
        let _ ← pyGetItem result "error"
        pure ()
      else pure () : Except PyErr Unit) with
  | Except.ok _ => (Except.ok (), logPhase "OBSERVE" ls)
  | Except.error e => (Except.error e, ls)

/-- `StepExecutor.reflect`, `step_executor.py` lines 278-346: the prompt
construction (plan fields, a second `summarize_result`) happens before the
`try` and can raise; LLM failures degrade to a fallback string. -/
def exec_reflect (env : AgentEnv) (plan result : Json) (iteration : ℕ)
    (ls : LogState) : Except PyErr (List Char) × LogState :=
  match (do
      let _ ← pyGet plan "tool"
      let _ ← pyGet plan "args"
      let _ ← pyGet plan "reasoning"
      summarize_result result : Except PyErr Json) with
  | Except.error e => (Except.error e, ls)
  | Except.ok _ =>
    match env.llmReflect iteration with
    | Except.ok txt => (Except.ok (pyStrip txt), logPhase "REFLECT" ls)
    | Except.error e =>
      (Except.ok (chars "Error in reflection: " ++ e.toList), logPhase "REFLECT" ls)

/-- One source citation of `generate_partial_result`
(`step_executor.py` lines 380-389); non-dict results are skipped, and the
`[:150]` slice of a bad `snippet` raises. -/
def mkSource (r : Json) : Except PyErr (Option Json) :=
  match r with
  | Json.obj f => do
    let sn ← pySlice (objGetD f "snippet" (jstr "")) 150
    pure (some (Json.obj [(chars "title", objGetD f "title" (jstr "Untitled")),
      (chars "url", objGetD f "url" (jstr "")),
      (chars "snippet", sn),
      (chars "published_at", objGetD f "published_at" (jstr ""))]))
  | _ => pure none

/-- The `search-content` iterations recorded in history
(`step_executor.py` lines 372-374). -/
def searchIterations (history : List Json) : Except PyErr (List Json) :=
  history.foldlM (fun acc h => do
    let t ← pyGet h "tool"
    if optIsStr t "search-content" then do
      let it ← pyGetItem h "iteration"
      pure (acc ++ [it])
    else pure acc) []

/-- The deterministic fallback partial result
(`step_executor.py` lines 458-468). -/
def fallbackPartial (e : PyErr) (sources : List Json) : Json :=
  Json.obj [(chars "warning",
      jstr "Agent reached maximum iterations without completing the goal."),
    (chars "insights",
      Json.arr [jstr "Unable to generate insights due to error in synthesis."]),
    (chars "recommendations",
      Json.arr [jstr "Please try running the query again or simplify the goal."]),
    (chars "error", Json.str e.toList),
    (chars "status", jstr "partial"),
    (chars "sources", Json.arr (sources.take 10))]

/-- `StepExecutor.generate_partial_result`, `step_executor.py` lines
348-468: source extraction (before the `try`, may raise), one LLM call,
`parse_json_response`, the two item assignments (a `TypeError` if the LLM
returned a non-dict), with every in-`try` exception degrading to the
deterministic fallback. -/
def generate_partial_result (env : AgentEnv) (context : Ctx) (ls : LogState) :
    Except PyErr Json × LogState :=
  match (do
      let sIters ← searchIterations context.iteration_history
      let sources ← ((context.search_results.getD []).take 10).foldlM
        (fun acc r => do
          match (← mkSource r) with
          | some src => pure (acc ++ [src])
          | none => pure acc) ([] : List Json)
      pure (sIters, sources) : Except PyErr (List Json × List Json)) with
  | Except.error e => (Except.error e, ls)
  | Except.ok (sIters, sources) =>
    match env.llmPartial with
    | Except.error e => (Except.ok (fallbackPartial e sources), ls)
    | Except.ok txt =>
      match (do
          let j ← parse_json_response (pyStrip txt)
          match j with
          | Json.obj f =>
            pure (Json.obj (ainsert (chars "search_iterations") (Json.arr sIters)
              (ainsert (chars "sources") (Json.arr (sources.take 10)) f)))
          | _ => Except.error "TypeError: object does not support item assignment"
          : Except PyErr Json) with
      | Except.ok j => (Except.ok j, logPhase "PARTIAL_RESULT" ls)
      | Except.error e => (Except.ok (fallbackPartial e sources), ls)

/-- The step-executor interface exactly as `AgentController.run` consumes
it; claims about arbitrary executor behaviour quantify over this. -/
structure StepExec where
  sense : List Char → Ctx → ℕ → LogState → Except PyErr Ctx × LogState
  plan : List Char → Ctx → ℕ → LogState → Except PyErr Json × LogState
  act : Json → ℕ → LogState → Except PyErr Json × LogState
  observe : Json → Json → ℕ → LogState → Except PyErr Unit × LogState
  reflect : Json → Json → List Char → Ctx → ℕ → LogState →
    Except PyErr (List Char) × LogState
  genPartial : List Char → Ctx → LogState → Except PyErr Json × LogState

/-- The concrete `StepExecutor` over the external oracles. -/
def stepExecOf (env : AgentEnv) : StepExec where
  sense uid ctx iter ls :=
    let (c, l) := exec_sense env uid ctx iter ls
    (Except.ok c, l)
  plan _goal _ctx iter ls :=
    let (p, l) := exec_plan env iter ls
    (Except.ok p, l)
  act p iter ls := exec_act env p iter ls
  observe p r iter ls := exec_observe p r iter ls
  reflect p r _goal _ctx iter ls := exec_reflect env p r iter ls
  genPartial _goal ctx ls := generate_partial_result env ctx ls

/-- `AgentResult` (`agent_result.py`): `output, logs, iteration_count,
status, session_id`. -/
structure AgentResult where
  output : Json
  logs : List String
  iteration_count : ℕ
  status : String
  session_id : String

/-- `AgentController._handle_completion`, lines 167-190. -/
def handle_completion (plan : Json) (iter : ℕ) (ls : LogState) :
    AgentResult × LogState :=
  let output := jget plan "output" (Json.obj [])
  let ls := logPhase "COMPLETE" ls
  ({ output := output, logs := ls.logs, iteration_count := iter,
     status := "completed", session_id := "session" }, ls)

/-- `AgentController._handle_clarification`, lines 192-213. -/
def handle_clarification (plan : Json) (iter : ℕ) (ls : LogState) :
    AgentResult × LogState :=
  let question := jget plan "question" (jstr "Need more information")
  let ls := logPhase "CLARIFY" ls
  ({ output := Json.obj [(chars "question", question),
       (chars "type", jstr "clarification_needed")],
     logs := ls.logs, iteration_count := iter,
     status := "needs_clarification", session_id := "session" }, ls)

/-- `AgentController._handle_plan_approval`, lines 215-240. -/
def handle_plan_approval (plan : Json) (iter : ℕ) (ls : LogState) :
    AgentResult × LogState :=
  let research_plan := jget plan "research_plan" (Json.obj [])
  let ls := logPhase "PLAN_APPROVAL" ls
  ({ output := Json.obj [(chars "research_plan", research_plan),
       (chars "type", jstr "plan_approval_needed"),
       (chars "message", jstr "Web search requires your approval")],
     logs := ls.logs, iteration_count := iter,
     status := "needs_approval", session_id := "session" }, ls)

/-- `AgentController._handle_timeout`, lines 242-270; the partial-result
generation may itself raise (propagating to the outer catch-all). -/
def handle_timeout (ex : StepExec) (goal : List Char) (ctx : Ctx) (iter : ℕ)
    (ls : LogState) : Except PyErr AgentResult × LogState :=
  match ex.genPartial goal ctx ls with
  | (Except.error e, ls) => (Except.error e, ls)
  | (Except.ok partial_output, ls) =>
    let ls := logPhase "COMPLETE" ls
    (Except.ok { output := partial_output, logs := ls.logs,
                 iteration_count := iter,
                 status := "timeout", session_id := "session" }, ls)

/-- `AgentController._handle_error`, lines 272-286. -/
def handle_error (e : PyErr) (iter : ℕ) (ls : LogState) : AgentResult × LogState :=
  let ls := logPhase "ERROR" ls
  ({ output := Json.obj [(chars "error", Json.str e.toList)],
     logs := ls.logs, iteration_count := iter,
     status := "failed", session_id := "session" }, ls)

/-- How one loop iteration ends. -/
inductive IterOut where
  | ret (r : AgentResult)
  | cont (ctx : Ctx)
  | raised (e : PyErr)

/-- The `search-content` results accumulation,
`agent_controller.py` lines 140-143. -/
def accumSearch (plan result : Json) (ctx : Ctx) : Except PyErr Ctx := do
  let t ← pyGet plan "tool"
  if optIsStr t "search-content" then do
    let hr ← pyContains result "results"
    if hr then do
      let v ← pyGet result "results"
      let items ← pyIterList ((v.getD (Json.arr [])))
      pure { ctx with search_results := some ((ctx.search_results.getD []) ++ items) }
    else pure ctx
  else pure ctx

/-- The history entry appended at the end of an iteration,
`agent_controller.py` lines 152-159. -/
def histEntry (iter : ℕ) (plan : Json) (reflection : List Char) : Json :=
  Json.obj [(chars "iteration", Json.num iter),
    (chars "action", jget plan "action_type" Json.null),
    (chars "tool", jget plan "tool" Json.null),
    (chars "reflection", Json.str reflection)]

/-- One iteration of the `while` body of `AgentController.run`, lines
104-159, in source order: SENSE (first iteration only), PLAN (counted),
the three terminal-action checks, then ACT → OBSERVE → accumulate search
results → REFLECT → append history.  The returned `ℕ` counts the PLAN
invocations this iteration performed (0 when SENSE raised first). -/
def runIter (ex : StepExec) (goal uid : List Char) (iter : ℕ) (ctx : Ctx)
    (ls : LogState) : IterOut × LogState × ℕ :=
  match (if iter = 1 then ex.sense uid ctx iter ls else (Except.ok ctx, ls)) with
  | (Except.error e, ls) => (IterOut.raised e, ls, 0)
  | (Except.ok ctx, ls) =>
    match ex.plan goal ctx iter ls with
    | (Except.error e, ls) => (IterOut.raised e, ls, 1)
    | (Except.ok plan, ls) =>
      match pyGet plan "action_type" with
      | Except.error e => (IterOut.raised e, ls, 1)
      | Except.ok a =>
        if optIsStr a "COMPLETE" then
          (IterOut.ret (handle_completion plan iter ls).1,
           (handle_completion plan iter ls).2, 1)
        else if optIsStr a "CLARIFY" then
          (IterOut.ret (handle_clarification plan iter ls).1,
           (handle_clarification plan iter ls).2, 1)
        else if optIsStr a "PLAN_APPROVAL" then
          (IterOut.ret (handle_plan_approval plan iter ls).1,
           (handle_plan_approval plan iter ls).2, 1)
        else
          match ex.act plan iter ls with
          | (Except.error e, ls) => (IterOut.raised e, ls, 1)
          | (Except.ok result, ls) =>
            match ex.observe plan result iter ls with
            | (Except.error e, ls) => (IterOut.raised e, ls, 1)
            | (Except.ok _, ls) =>
              match accumSearch plan result ctx with
              | Except.error e => (IterOut.raised e, ls, 1)
              | Except.ok ctx =>
                match ex.reflect plan result goal ctx iter ls with
                | (Except.error e, ls) => (IterOut.raised e, ls, 1)
                | (Except.ok refl, ls) =>
                  (IterOut.cont { ctx with
                                  last_reflection := some refl,
                                  iteration_history := ctx.iteration_history
                                    ++ [histEntry iter plan refl] }, ls, 1)

/-- How the `while` loop ends: an in-loop `return`, falling through the
guard, or an uncaught exception. -/
inductive LoopExit where
  | ret (r : AgentResult)
  | fell (ctx : Ctx)
  | raised (e : PyErr)

/-- The `while iteration < max_iterations` loop, counting down the
remaining iterations; returns the exit, the final value of the `iteration`
variable, the log state, and the number of PLAN invocations. -/
def runLoop (ex : StepExec) (goal uid : List Char) :
    ℕ → ℕ → Ctx → LogState → ℕ → LoopExit × ℕ × LogState × ℕ
  | 0, iter, ctx, ls, plans => (LoopExit.fell ctx, iter, ls, plans)
  | remaining + 1, iter, ctx, ls, plans =>
    match runIter ex goal uid (iter + 1) ctx ls with
    | (IterOut.ret r, ls, p) => (LoopExit.ret r, iter + 1, ls, plans + p)
    | (IterOut.raised e, ls, p) => (LoopExit.raised e, iter + 1, ls, plans + p)
    | (IterOut.cont ctx, ls, p) =>
      runLoop ex goal uid remaining (iter + 1) ctx ls (plans + p)

/-- The initial context of a run (`agent_controller.py` line 101). -/
def initCtx (uid : List Char) : Ctx :=
  { user_id := uid, user_context := none, iteration_history := [],
    search_results := none, last_reflection := none }

/-- A fresh log state. -/
def initLog : LogState := { logs := [], toolTrace := [] }

/-- `AgentController.run`, `agent_controller.py` lines 83-165: the bounded
loop inside one `try`; falling through runs `_handle_timeout` (still
inside the `try`); any uncaught exception lands in `_handle_error`. -/
def run (ex : StepExec) (goal uid : List Char) (maxIter : ℕ) :
    AgentResult × LogState × ℕ :=
  match runLoop ex goal uid maxIter 0 (initCtx uid) initLog 0 with
  | (LoopExit.ret r, _, ls, plans) => (r, ls, plans)
  | (LoopExit.raised e, iter, ls, plans) =>
    let (r, ls) := handle_error e iter ls
    (r, ls, plans)
  | (LoopExit.fell ctx, iter, ls, plans) =>
    match handle_timeout ex goal ctx iter ls with
    | (Except.ok r, ls) => (r, ls, plans)
    | (Except.error e, ls) =>
      let (r, ls) := handle_error e iter ls
      (r, ls, plans)

end ControllerModel

section ControllerPredicates

/-- Is this log entry one of the four terminal transitions named by the
spec (COMPLETE / CLARIFY / PLAN_APPROVAL / ERROR)? -/
def isTerm (s : String) : Bool :=
  s = "COMPLETE" || s = "CLARIFY" || s = "PLAN_APPROVAL" || s = "ERROR"

/-- Number of terminal log entries. -/
def countTerm (logs : List String) : ℕ := logs.countP isTerm

/-- A search-result item whose optional `snippet` is a string, so that the
`[:150]` slice in `generate_partial_result` cannot raise. -/
def wfSearchItem (j : Json) : Bool :=
  match j with
  | Json.obj f =>
    match alookup (chars "snippet") f with
    | none => true
    | some (Json.str _) => true
    | some _ => false
  | _ => true

/-- A tool result shaped so that the observe/reflect summaries and the
search-result accumulation cannot raise: a dict whose optional `results`
key holds a list of well-formed search items and whose optional `insights`
key holds a list of dicts. -/
def wfToolResult (j : Json) : Bool :=
  match j with
  | Json.obj f =>
    (match alookup (chars "results") f with
     | none => true
     | some (Json.arr l) => l.all wfSearchItem
     | some _ => false) &&
    (match alookup (chars "insights") f with
     | none => true
     | some (Json.arr l) =>
       l.all (fun i => match i with | Json.obj _ => true | _ => false)
     | some _ => false)
  | _ => false

/-- A history entry on which `generate_partial_result` cannot raise: a
dict with an `iteration` key (every entry the controller appends has this
shape). -/
def wfHist (h : Json) : Bool :=
  match h with
  | Json.obj f => (alookup (chars "iteration") f).isSome
  | _ => false

/-- The controller-context invariant maintained by the loop. -/
def wfCtx (ctx : Ctx) : Bool :=
  (ctx.search_results.getD []).all wfSearchItem && ctx.iteration_history.all wfHist

/-- A parsed plan that is a dict but whose `action_type` is none of the
three terminal actions, so the loop body always proceeds to ACT. -/
def nonTerminalPlan (p : Json) : Bool :=
  match p with
  | Json.obj f =>
    match alookup (chars "action_type") f with
    | some v => !(jsonBeq v (jstr "COMPLETE") || jsonBeq v (jstr "CLARIFY")
        || jsonBeq v (jstr "PLAN_APPROVAL"))
    | none => true
  | _ => false

/-- The partial-result synthesis as parsed: the LLM response stripped and
fed through `parse_json_response`. -/
def partialParsed (env : AgentEnv) : Except PyErr Json := do
  let t ← env.llmPartial
  parse_json_response (pyStrip t)

end ControllerPredicates

section Fixtures

/-- A tool implementation that always succeeds with an empty dict. -/
def implOk : List Char → Json → Except PyErr Json :=
  fun _ _ => Except.ok (Json.obj [])

/-- An environment whose planning LLM always answers with the JSON list
`[1, 2]` — valid JSON, so parsing succeeds and the plan is not a dict. -/
def envList : AgentEnv :=
  { llmPlan := fun _ => Except.ok (chars "[1, 2]"),
    llmReflect := fun _ => Except.ok (chars "looks fine"),
    llmPartial := Except.error "llm down",
    impl := implOk }

/-- An environment whose planning LLM always answers with a dict plan
whose `action_type` is the non-terminal, non-tool action `THINK`. -/
def envThink : AgentEnv :=
  { llmPlan := fun _ => Except.ok (chars "\x7b\"action_type\": \"THINK\"\x7d"),
    llmReflect := fun _ => Except.ok (chars "looks fine"),
    llmPartial := Except.error "llm down",
    impl := implOk }

/-- An environment whose planning LLM asks for plan approval on the very
first iteration. -/
def envApprove1 : AgentEnv :=
  { llmPlan := fun _ => Except.ok (chars
      "\x7b\"action_type\": \"PLAN_APPROVAL\", \"research_plan\": \x7b\x7d\x7d"),
    llmReflect := fun _ => Except.ok (chars "looks fine"),
    llmPartial := Except.error "llm down",
    impl := implOk }

/-- An environment that thinks on iteration 1 and asks for plan approval
on iteration 2. -/
def envApprove2 : AgentEnv :=
  { llmPlan := fun n =>
      if n = 1 then Except.ok (chars "\x7b\"action_type\": \"THINK\"\x7d")
      else Except.ok (chars
        "\x7b\"action_type\": \"PLAN_APPROVAL\", \"research_plan\": \x7b\x7d\x7d"),
    llmReflect := fun _ => Except.ok (chars "looks fine"),
    llmPartial := Except.error "llm down",
    impl := implOk }

/-- An environment whose planning LLM call always fails. -/
def envBoom : AgentEnv :=
  { llmPlan := fun _ => Except.error "boom",
    llmReflect := fun _ => Except.ok (chars "looks fine"),
    llmPartial := Except.error "llm down",
    impl := implOk }

end Fixtures

-- ===================================================================
-- THEOREMS (all definitions go above this line)
-- ===================================================================

/-- `round2` is the identity on exact integer multiples of `1/100`. -/
theorem round2_eq_self_of_hundredth (m : ℤ) : round2 ((m : ℚ) / 100) = (m : ℚ) / 100 := by
  unfold round2
  rw [div_mul_cancel₀ _ (by norm_num : (100 : ℚ) ≠ 0), round_intCast]

theorem conf_max_cast (B : ℤ) (k : ℕ) :
    max (0.0 : ℚ) ((B : ℚ) / 100 - (k : ℚ) * 0.15) = ((max 0 (B - 15 * k) : ℤ) : ℚ) / 100 := by
  push_cast
  rw [← max_div_div_right (by norm_num : (0:ℚ) ≤ 100)]
  congr 1
  · norm_num
  · ring

/-- C5: the confidence score equals the claimed formula
`round(max(0.0, base - 0.15 * gap_count), 2)` with the claimed step
function as base; the rounding is in fact the identity there; and the five
boundary points take the claimed values. -/
theorem confidence_score_formula :
    (∀ (n : ℕ) (gaps : List ContentGap),
        _calculate_confidence_score n gaps = specConfidence n gaps.length ∧
        _calculate_confidence_score n gaps
          = max 0.0 (specBase n - 0.15 * (gaps.length : ℚ))) ∧
    (∀ g : ContentGap,
        _calculate_confidence_score 0 [g] = 0.0 ∧
        _calculate_confidence_score 5 [] = 0.8 ∧
        _calculate_confidence_score 10 [g] = 0.85 ∧
        _calculate_confidence_score 3 [g, g] = 0.3 ∧
        _calculate_confidence_score 1 [] = 0.4) := by
  have base_eq : ∀ n : ℕ,
      (if n ≥ 10 then (1.0 : ℚ) else if n ≥ 5 then 0.8 else if n ≥ 3 then 0.6
        else if n ≥ 1 then 0.4 else 0.0) = specBase n := by
    intro n
    unfold specBase
    split_ifs <;> first | omega | norm_num
  have spec_cast : ∀ n : ℕ, ∃ B : ℤ, specBase n = (B : ℚ) / 100 := by
    intro n
    unfold specBase
    split_ifs
    exacts [⟨0, by norm_num⟩, ⟨40, by norm_num⟩, ⟨60, by norm_num⟩,
      ⟨80, by norm_num⟩, ⟨100, by norm_num⟩]
  have round_id : ∀ n k : ℕ, specConfidence n k = max 0.0 (specBase n - 0.15 * (k : ℚ)) := by
    intro n k
    obtain ⟨B, hB⟩ := spec_cast n
    unfold specConfidence
    rw [hB, mul_comm (0.15 : ℚ) (k : ℚ), conf_max_cast, round2_eq_self_of_hundredth,
      ← conf_max_cast, mul_comm ((k : ℚ)) (0.15 : ℚ)]
  have gen : ∀ (n : ℕ) (gaps : List ContentGap),
      _calculate_confidence_score n gaps = specConfidence n gaps.length := by
    intro n gaps
    unfold _calculate_confidence_score specConfidence
    rw [base_eq n, mul_comm ((gaps.length : ℚ)) (0.15 : ℚ)]
  refine ⟨fun n gaps => ⟨gen n gaps, by rw [gen n gaps, round_id]⟩, fun g => ?_⟩
  refine ⟨?_, ?_, ?_, ?_, ?_⟩ <;>
    simp only [gen, round_id, List.length_cons, List.length_nil] <;>
    norm_num [specBase]


section ScanLemmas

theorem hasLead_append (p r : List Char) : hasLead p (p ++ r) = true := by
  induction p with
  | nil => rfl
  | cons c cs ih => simp [hasLead, ih]

theorem hasLead_head_ne {b c : Char} (p t : List Char) (h : c ≠ b) :
    hasLead (b :: p) (c :: t) = false := by
  simp [hasLead]
  intro hbc
  exact absurd hbc.symm h

theorem containsSub_skip {b : Char} (p s₂ : List Char) :
    ∀ s₁ : List Char, (∀ c ∈ s₁, c ≠ b) →
      containsSub (b :: p) (s₁ ++ s₂) = containsSub (b :: p) s₂ := by
  intro s₁ h
  induction s₁ with
  | nil => rfl
  | cons c cs ih =>
    have hc : c ≠ b := h c (by simp)
    simp only [List.cons_append, containsSub, hasLead_head_ne p _ hc, Bool.false_or]
    exact ih (fun x hx => h x (by simp [hx]))

theorem containsSub_none {b : Char} (p s : List Char) (h : ∀ c ∈ s, c ≠ b) :
    containsSub (b :: p) s = false := by
  have h2 := containsSub_skip p [] s h
  simpa [containsSub, hasLead] using h2

theorem splitGo_nil (sep : List Char) (fuel : ℕ) (acc : List Char) :
    splitGo sep fuel [] acc = [acc.reverse] := by
  cases fuel <;> simp [splitGo]

theorem splitGo_noOccur {b : Char} (p : List Char) :
    ∀ (s : List Char) (fuel : ℕ) (acc : List Char), (∀ c ∈ s, c ≠ b) →
      splitGo (b :: p) fuel s acc = [acc.reverse ++ s]
  | s, 0, acc, _ => by simp [splitGo]
  | [], fuel + 1, acc, _ => by simp [splitGo]
  | c :: cs, fuel + 1, acc, h => by
    have hc : c ≠ b := h c (by simp)
    rw [splitGo, hasLead_head_ne p cs hc]
    simp only [Bool.false_eq_true, if_false]
    rw [splitGo_noOccur p cs fuel (c :: acc) (fun x hx => h x (by simp [hx]))]
    simp

theorem splitGo_boundary {b : Char} (p : List Char) :
    ∀ (x : List Char) (fuel : ℕ) (y acc : List Char), (∀ c ∈ x, c ≠ b) →
      splitGo (b :: p) (x.length + 1 + fuel) (x ++ (b :: p) ++ y) acc
        = (acc.reverse ++ x) :: splitGo (b :: p) fuel y []
  | [], fuel, y, acc, _ => by
    have harith : ([] : List Char).length + 1 + fuel = fuel + 1 := by
      simp only [List.length_nil]; omega
    rw [harith]
    simp only [List.nil_append]
    rw [show ((b :: p) ++ y) = b :: (p ++ y) by simp]
    rw [splitGo]
    rw [show hasLead (b :: p) (b :: (p ++ y)) = true from hasLead_append (b :: p) y]
    simp only [if_true]
    have hdrop : (b :: (p ++ y)).drop (max 1 (b :: p).length) = y := by
      rw [show max 1 (b :: p).length = (b :: p).length by simp]
      rw [show (b :: (p ++ y)) = (b :: p) ++ y by simp]
      exact List.drop_left (b :: p) y
    congr 1
    · simp
    · rw [hdrop]
  | c :: x', fuel, y, acc, h => by
    have hc : c ≠ b := h c (by simp)
    have harith : (c :: x').length + 1 + fuel = (x'.length + 1 + fuel) + 1 := by
      simp only [List.length_cons]; omega
    rw [harith]
    rw [show ((c :: x') ++ (b :: p) ++ y) = c :: (x' ++ (b :: p) ++ y) by simp]
    rw [splitGo, hasLead_head_ne p _ hc]
    simp only [Bool.false_eq_true, if_false]
    rw [splitGo_boundary p x' fuel y (c :: acc) (fun d hd => h d (by simp [hd]))]
    simp

end ScanLemmas

section StripDigitsLemmas

theorem pyStrip_keep {h l : Char} (mid : List Char)
    (hh : isPySpace h = false) (hl : isPySpace l = false) :
    pyStrip (h :: mid ++ [l]) = h :: mid ++ [l] := by
  unfold pyStrip
  rw [show (h :: mid ++ [l]) = h :: (mid ++ [l]) by simp]
  rw [List.dropWhile_cons, hh]
  simp only [Bool.false_eq_true, if_false]
  rw [show (h :: (mid ++ [l])).reverse = l :: (mid.reverse ++ [h]) by simp]
  rw [List.dropWhile_cons, hl]
  simp only [Bool.false_eq_true, if_false]
  simp

theorem pyStrip_wrap {h l : Char} (mid : List Char)
    (hh : isPySpace h = false) (hl : isPySpace l = false) :
    pyStrip ('\n' :: ((h :: mid ++ [l]) ++ ['\n'])) = h :: mid ++ [l] := by
  unfold pyStrip
  rw [List.dropWhile_cons, show isPySpace '\n' = true from rfl]
  simp only [if_true]
  rw [show ((h :: mid ++ [l]) ++ ['\n']) = h :: (mid ++ [l] ++ ['\n']) by simp]
  rw [List.dropWhile_cons, hh]
  simp only [Bool.false_eq_true, if_false]
  rw [show (h :: (mid ++ [l] ++ ['\n'])).reverse = '\n' :: (l :: (mid.reverse ++ [h])) by simp]
  rw [List.dropWhile_cons, show isPySpace '\n' = true from rfl]
  simp only [if_true]
  rw [List.dropWhile_cons, hl]
  simp only [Bool.false_eq_true, if_false]
  simp

theorem foldl_rev_ofDigits (l : List ℕ) :
    List.foldl (fun a d => a * 10 + d) 0 l.reverse = Nat.ofDigits 10 l := by
  induction l with
  | nil => simp [Nat.ofDigits]
  | cons d l ih =>
    rw [List.reverse_cons, List.foldl_append]
    simp only [List.foldl_cons, List.foldl_nil, ih, Nat.ofDigits_cons]
    ring

theorem char_digit_toNat (d : ℕ) (hd : d < 10) : (Char.ofNat (d + 48)).toNat = d + 48 := by
  interval_cases d <;> rfl

theorem char_digit_isDigit (d : ℕ) (hd : d < 10) : (Char.ofNat (d + 48)).isDigit = true := by
  interval_cases d <;> rfl

theorem digitChars_all_digit (n : ℕ) : ∀ c ∈ digitChars n, c.isDigit = true := by
  intro c hc
  unfold digitChars at hc
  split at hc
  · simp at hc; subst hc; rfl
  · simp only [List.mem_map, List.mem_reverse] at hc
    obtain ⟨d, hd, rfl⟩ := hc
    exact char_digit_isDigit d (Nat.digits_lt_base (by norm_num) hd)

theorem digitChars_ne_nil (n : ℕ) : digitChars n ≠ [] := by
  unfold digitChars
  split
  · simp
  · simp only [ne_eq, List.map_eq_nil_iff, List.reverse_eq_nil_iff]
    exact Nat.digits_ne_nil_iff_ne_zero.mpr (by assumption)

theorem natOfChars_digitChars (n : ℕ) : natOfChars (digitChars n) = n := by
  unfold digitChars natOfChars
  split
  · subst n; rfl
  · rw [List.foldl_map]
    rw [List.foldl_ext (g := fun a d => a * 10 + d)]
    · rw [foldl_rev_ofDigits, Nat.ofDigits_digits]
    · intro a d hd
      rw [List.mem_reverse] at hd
      rw [char_digit_toNat d (Nat.digits_lt_base (by norm_num) hd)]
      omega

end StripDigitsLemmas

section ParsePieces

theorem skipWs_not_ws {c : Char} (s : List Char) (h : isJsonWs c = false) :
    skipWs (c :: s) = c :: s := by
  unfold skipWs
  rw [List.dropWhile_cons, h]
  simp

theorem span_digits :
    ∀ (ds : List Char), (∀ c ∈ ds, c.isDigit = true) →
      ∀ (rest : List Char), (∀ c, rest.head? = some c → c.isDigit = false) →
        List.span Char.isDigit (ds ++ rest) = (ds, rest) := by
  intro ds hds
  induction ds with
  | nil =>
    intro rest hrest
    rw [List.span_eq_take_drop]
    cases rest with
    | nil => rfl
    | cons c cs =>
      have hc : c.isDigit = false := hrest c rfl
      simp [List.takeWhile_cons, List.dropWhile_cons, hc]
  | cons d ds ih =>
    intro rest hrest
    have hd : d.isDigit = true := hds d (by simp)
    have ih2 := ih (fun c hc => hds c (by simp [hc])) rest hrest
    rw [List.span_eq_take_drop] at ih2 ⊢
    simp only [List.cons_append, List.takeWhile_cons, List.dropWhile_cons, hd, if_true]
    simp only [Prod.mk.injEq] at ih2 ⊢
    exact ⟨by rw [ih2.1], by rw [ih2.2]⟩

theorem parseStrGo_round :
    ∀ (s : List Char), wfChars s = true →
      ∀ (acc rest : List Char),
        parseStrGo (escape s ++ '"' :: rest) acc = some (acc.reverse ++ s, rest) := by
  intro s
  induction s with
  | nil =>
    intro _ acc rest
    rw [show (escape [] ++ '"' :: rest) = '"' :: rest by simp [escape]]
    rw [parseStrGo.eq_def]
    simp
  | cons c cs ih =>
    intro hs acc rest
    have hval : wfChars cs = true := by
      simp only [wfChars, List.all_cons, Bool.and_eq_true] at hs
      exact hs.2
    have hrec := ih hval
    rw [show escape (c :: cs) = escChar c ++ escape cs by simp [escape]]
    unfold escChar
    split_ifs with h1 h2 h3 h4 h5
    · subst h1
      rw [parseStrGo.eq_def]
      simp [unescChar, hrec]
    · subst h2
      rw [parseStrGo.eq_def]
      simp [unescChar, hrec]
    · subst h3
      rw [parseStrGo.eq_def]
      simp [unescChar, hrec]
    · subst h4
      rw [parseStrGo.eq_def]
      simp [unescChar, hrec]
    · subst h5
      rw [parseStrGo.eq_def]
      simp [unescChar, hrec]
    · rw [show ([c] ++ escape cs ++ '"' :: rest) = c :: (escape cs ++ '"' :: rest) by simp]
      rw [parseStrGo.eq_def]
      simp only [h1, h2, if_false]
      rw [hrec (c :: acc) rest]
      simp

end ParsePieces

section HeadLemmas

theorem isDigit_not_ws {c : Char} (h : c.isDigit = true) : isJsonWs c = false := by
  cases hws : isJsonWs c
  · rfl
  · exfalso
    simp only [isJsonWs, Bool.or_eq_true, beq_iff_eq] at hws
    rcases hws with ((rfl | rfl) | rfl) | rfl <;> exact absurd h (by decide)

theorem isDigit_ne_rbracket {c : Char} (h : c.isDigit = true) : c ≠ ']' := by
  rintro rfl; exact absurd h (by decide)

theorem isDigit_ne_rbrace {c : Char} (h : c.isDigit = true) : c ≠ '}' := by
  rintro rfl; exact absurd h (by decide)

theorem skipWs_append_ws :
    ∀ (sp t : List Char), (∀ c ∈ sp, isJsonWs c = true) → skipWs (sp ++ t) = skipWs t := by
  intro sp t h
  induction sp with
  | nil => rfl
  | cons c cs ih =>
    have hc : isJsonWs c = true := h c (by simp)
    simp only [List.cons_append, skipWs, List.dropWhile_cons, hc, if_true]
    exact ih (fun x hx => h x (by simp [hx]))

theorem parseVal_skip (fuel : ℕ) (sp t : List Char) (h : ∀ c ∈ sp, isJsonWs c = true) :
    parseVal fuel (sp ++ t) = parseVal fuel t := by
  cases fuel with
  | zero => rfl
  | succ fuel =>
    rw [parseVal.eq_def]
    conv_rhs => rw [parseVal.eq_def]
    dsimp only
    rw [skipWs_append_ws sp t h]

/-- The first character of a rendered JSON value: never whitespace, never a
closing bracket. -/
theorem render_head (v : Json) :
    ∃ c t, render v = c :: t ∧ isJsonWs c = false ∧ c ≠ ']' ∧ c ≠ '}' ∧ c ≠ ',' := by
  cases v with
  | null =>
    exact ⟨'n', ['u', 'l', 'l'], by simp [render, chars], by decide, by decide, by decide,
      by decide⟩
  | bool b =>
    cases b with
    | true =>
      exact ⟨'t', ['r', 'u', 'e'], by simp [render, chars], by decide, by decide, by decide,
        by decide⟩
    | false =>
      exact ⟨'f', ['a', 'l', 's', 'e'], by simp [render, chars], by decide, by decide, by decide,
        by decide⟩
  | num i =>
    by_cases hneg : i < 0
    · exact ⟨'-', digitChars i.natAbs, by simp [render, intChars, hneg], by decide, by decide,
        by decide, by decide⟩
    · obtain ⟨d, ds, hds⟩ := List.exists_cons_of_ne_nil (digitChars_ne_nil i.natAbs)
      have hd : d.isDigit = true := digitChars_all_digit i.natAbs d (by rw [hds]; simp)
      refine ⟨d, ds, ?_, isDigit_not_ws hd, isDigit_ne_rbracket hd, isDigit_ne_rbrace hd, ?_⟩
      · simp [render, intChars, hneg, hds]
      · rintro rfl; exact absurd hd (by decide)
  | str s =>
    exact ⟨'"', escape s ++ ['"'], by simp [render], by decide, by decide, by decide, by decide⟩
  | arr es =>
    exact ⟨'[', renderElems es ++ [']'], by simp [render], by decide, by decide, by decide,
      by decide⟩
  | obj fs =>
    exact ⟨'{', renderFields fs ++ ['}'], by simp [render], by decide, by decide, by decide,
      by decide⟩

end HeadLemmas

section RoundTrip

theorem renderElems_single (x : Json) : renderElems [x] = render x := by
  simp [renderElems]

theorem renderElems_cons2 (x y : Json) (ys : List Json) :
    renderElems (x :: y :: ys) = render x ++ (chars ", " ++ renderElems (y :: ys)) := by
  simp [renderElems]

theorem renderFields_single (k : List Char) (v : Json) :
    renderFields [(k, v)] = '"' :: (escape k ++ ['"']) ++ chars ": " ++ render v := by
  simp [renderFields]

theorem renderFields_cons2 (k : List Char) (v : Json) (f : List Char × Json)
    (fs : List (List Char × Json)) :
    renderFields ((k, v) :: f :: fs)
      = '"' :: (escape k ++ ['"']) ++ chars ": " ++ render v ++ chars ", "
          ++ renderFields (f :: fs) := by
  simp [renderFields]

theorem jsize_pos (v : Json) : 1 ≤ jsize v := by
  cases v <;> simp [jsize] <;> omega

theorem skipWs_space (t : List Char) : skipWs (' ' :: t) = skipWs t := by
  simp [skipWs, List.dropWhile_cons, isJsonWs]

theorem parseVal_digit (fuel : ℕ) (d : Char) (hd : d.isDigit = true) (t : List Char) :
    parseVal (fuel + 1) (d :: t)
      = (match List.span Char.isDigit (d :: t) with
         | (ds, rest') => some (Json.num (natOfChars ds), rest')) := by
  rw [parseVal.eq_def]
  dsimp only
  rw [skipWs_not_ws _ (isDigit_not_ws hd)]
  dsimp only
  rw [if_neg (show ¬d = '{' by rintro rfl; exact absurd hd (by decide))]
  rw [if_neg (show ¬d = '[' by rintro rfl; exact absurd hd (by decide))]
  rw [if_neg (show ¬d = '"' by rintro rfl; exact absurd hd (by decide))]
  rw [if_neg (show ¬d = 't' by rintro rfl; exact absurd hd (by decide))]
  rw [if_neg (show ¬d = 'f' by rintro rfl; exact absurd hd (by decide))]
  rw [if_neg (show ¬d = 'n' by rintro rfl; exact absurd hd (by decide))]
  rw [if_neg (show ¬d = '-' by rintro rfl; exact absurd hd (by decide))]
  rw [if_pos hd]

theorem parse_render_all : ∀ fuel : ℕ,
    (∀ v rest, wfJson v = true → jsize v ≤ fuel →
      (∀ c, rest.head? = some c → c.isDigit = false) →
      parseVal fuel (render v ++ rest) = some (v, rest)) ∧
    (∀ x xs acc rest, wfList (x :: xs) = true → lsize (x :: xs) ≤ fuel →
      parseArrItems fuel (renderElems (x :: xs) ++ ']' :: rest) acc
        = some (Json.arr (acc.reverse ++ x :: xs), rest)) ∧
    (∀ k v fs acc rest, wfFields ((k, v) :: fs) = true → fsize ((k, v) :: fs) ≤ fuel →
      parseObjItems fuel (renderFields ((k, v) :: fs) ++ '}' :: rest) acc
        = some (Json.obj (acc.reverse ++ (k, v) :: fs), rest)) := by
  intro fuel
  induction fuel with
  | zero =>
    refine ⟨?_, ?_, ?_⟩
    · intro v _ _ hsize _
      exact absurd hsize (by have := jsize_pos v; omega)
    · intro x xs _ _ _ hsize
      exact absurd hsize (by simp [lsize])
    · intro k v fs _ _ _ hsize
      exact absurd hsize (by simp [fsize])
  | succ fuel ih =>
    obtain ⟨IHP, IHQ, IHR⟩ := ih
    refine ⟨?_, ?_, ?_⟩
    · -- parseVal on a rendered value
      intro v rest hwf hsize hrest
      cases v with
      | null =>
        rw [show render Json.null ++ rest = 'n' :: ('u' :: 'l' :: 'l' :: rest) by
          simp [render, chars]]
        rw [parseVal.eq_def]
        dsimp only
        rw [skipWs_not_ws _ (by decide)]
        simp [hasLead]
      | bool b =>
        cases b with
        | true =>
          rw [show render (Json.bool true) ++ rest = 't' :: ('r' :: 'u' :: 'e' :: rest) by
            simp [render, chars]]
          rw [parseVal.eq_def]
          dsimp only
          rw [skipWs_not_ws _ (by decide)]
          simp [hasLead]
        | false =>
          rw [show render (Json.bool false) ++ rest
                = 'f' :: ('a' :: 'l' :: 's' :: 'e' :: rest) by simp [render, chars]]
          rw [parseVal.eq_def]
          dsimp only
          rw [skipWs_not_ws _ (by decide)]
          simp [hasLead]
      | num i =>
        rw [show render (Json.num i) = intChars i by simp [render]]
        unfold intChars
        split_ifs with hneg
        · rw [show ('-' :: digitChars i.natAbs) ++ rest
                = '-' :: (digitChars i.natAbs ++ rest) by simp]
          rw [parseVal.eq_def]
          dsimp only
          rw [skipWs_not_ws _ (by decide)]
          simp only [reduceIte, reduceCtorEq, Char.reduceEq]
          rw [span_digits (digitChars i.natAbs) (digitChars_all_digit _) rest hrest]
          dsimp only
          rw [if_neg (by simpa [List.isEmpty_iff] using digitChars_ne_nil i.natAbs)]
          rw [natOfChars_digitChars]
          have : -((i.natAbs : ℤ)) = i := by omega
          rw [this]
        · obtain ⟨d, ds, hds⟩ := List.exists_cons_of_ne_nil (digitChars_ne_nil i.natAbs)
          have hd : d.isDigit = true := digitChars_all_digit i.natAbs d (by rw [hds]; simp)
          rw [hds]
          rw [show (d :: ds) ++ rest = d :: (ds ++ rest) by simp]
          rw [parseVal_digit fuel d hd]
          rw [show d :: (ds ++ rest) = (d :: ds) ++ rest by simp, ← hds]
          rw [span_digits (digitChars i.natAbs) (digitChars_all_digit _) rest hrest]
          dsimp only
          rw [natOfChars_digitChars]
          have : ((i.natAbs : ℤ)) = i := by omega
          rw [this]
      | str s =>
        rw [show render (Json.str s) ++ rest = '"' :: (escape s ++ '"' :: rest) by
          simp [render]]
        rw [parseVal.eq_def]
        dsimp only
        rw [skipWs_not_ws _ (by decide)]
        simp only [reduceIte, reduceCtorEq, Char.reduceEq]
        rw [parseStrGo_round s (by simpa [wfJson] using hwf) [] rest]
        simp
      | arr es =>
        cases es with
        | nil =>
          rw [show render (Json.arr []) ++ rest = '[' :: (']' :: rest) by
            simp [render, renderElems]]
          rw [parseVal.eq_def]
          dsimp only
          rw [skipWs_not_ws _ (by decide)]
          simp only [reduceIte, reduceCtorEq, Char.reduceEq]
          rw [skipWs_not_ws _ (by decide)]
          simp
        | cons x xs =>
          obtain ⟨c, t, hct, hcw, hcrb, _, _⟩ := render_head x
          have hwfl : wfList (x :: xs) = true := by
            simpa [wfJson] using hwf
          have hls : lsize (x :: xs) ≤ fuel := by
            simp only [jsize] at hsize; omega
          rw [show render (Json.arr (x :: xs)) ++ rest
                = '[' :: (renderElems (x :: xs) ++ ']' :: rest) by simp [render]]
          rw [parseVal.eq_def]
          dsimp only
          rw [skipWs_not_ws _ (by decide)]
          dsimp only
          rw [if_neg (by decide), if_pos rfl]
          obtain ⟨T, hT⟩ : ∃ T, renderElems (x :: xs) = c :: T := by
            cases xs with
            | nil => exact ⟨t, by rw [renderElems_single, hct]⟩
            | cons y ys =>
              exact ⟨t ++ (chars ", " ++ renderElems (y :: ys)), by
                rw [renderElems_cons2, hct]; simp⟩
          rw [hT, show (c :: T) ++ ']' :: rest = c :: (T ++ ']' :: rest) by simp]
          rw [skipWs_not_ws _ hcw]
          dsimp only
          rw [if_neg hcrb]
          rw [show c :: (T ++ ']' :: rest) = (c :: T) ++ ']' :: rest by simp, ← hT]
          rw [IHQ x xs [] rest hwfl hls]
          simp
      | obj fs =>
        cases fs with
        | nil =>
          rw [show render (Json.obj []) ++ rest = '{' :: ('}' :: rest) by
            simp [render, renderFields]]
          rw [parseVal.eq_def]
          dsimp only
          rw [skipWs_not_ws _ (by decide)]
          dsimp only
          rw [if_pos rfl]
          rw [skipWs_not_ws _ (by decide)]
          dsimp only
          rw [if_pos rfl]
        | cons f fs' =>
          obtain ⟨k, v⟩ := f
          have hwff : wfFields ((k, v) :: fs') = true := by
            simp only [wfJson, Bool.and_eq_true] at hwf
            exact hwf.1
          have hfs : fsize ((k, v) :: fs') ≤ fuel := by
            simp only [jsize] at hsize; omega
          rw [show render (Json.obj ((k, v) :: fs')) ++ rest
                = '{' :: (renderFields ((k, v) :: fs') ++ '}' :: rest) by simp [render]]
          rw [parseVal.eq_def]
          dsimp only
          rw [skipWs_not_ws _ (by decide)]
          dsimp only
          rw [if_pos rfl]
          obtain ⟨T, hT⟩ : ∃ T, renderFields ((k, v) :: fs') = '"' :: T := by
            cases fs' with
            | nil =>
              exact ⟨escape k ++ ['"'] ++ chars ": " ++ render v, by
                rw [renderFields_single]; simp⟩
            | cons g gs =>
              exact ⟨escape k ++ ['"'] ++ chars ": " ++ render v ++ chars ", "
                  ++ renderFields (g :: gs), by rw [renderFields_cons2]; simp⟩
          rw [hT, show ('"' :: T) ++ '}' :: rest = '"' :: (T ++ '}' :: rest) by simp]
          rw [skipWs_not_ws _ (by decide)]
          dsimp only
          rw [if_neg (by decide)]
          rw [show '"' :: (T ++ '}' :: rest) = ('"' :: T) ++ '}' :: rest by simp, ← hT]
          rw [IHR k v fs' [] rest hwff hfs]
          simp
    · -- parseArrItems on rendered items
      intro x xs acc rest hwf hsize
      have hwx : wfJson x = true := by
        simp only [wfList, Bool.and_eq_true] at hwf
        exact hwf.1
      cases xs with
      | nil =>
        have hsx : jsize x ≤ fuel := by simp only [lsize] at hsize; omega
        rw [renderElems_single]
        rw [parseArrItems]
        rw [IHP x (']' :: rest) hwx hsx
          (by intro c hc; simp only [List.head?_cons, Option.some.injEq] at hc
              subst hc; decide)]
        dsimp only
        rw [skipWs_not_ws _ (by decide)]
        simp
      | cons y ys =>
        have hwy : wfList (y :: ys) = true := by
          simp only [wfList, Bool.and_eq_true] at hwf ⊢
          exact hwf.2
        have hsx : jsize x ≤ fuel := by simp only [lsize] at hsize; omega
        have hsy : lsize (y :: ys) ≤ fuel := by
          simp only [lsize] at hsize ⊢
          omega
        rw [renderElems_cons2]
        rw [show (render x ++ (chars ", " ++ renderElems (y :: ys))) ++ ']' :: rest
              = render x ++ (',' :: (' ' :: (renderElems (y :: ys) ++ ']' :: rest))) by
          simp [chars]]
        rw [parseArrItems]
        rw [IHP x (',' :: (' ' :: (renderElems (y :: ys) ++ ']' :: rest))) hwx hsx
          (by intro c hc; simp only [List.head?_cons, Option.some.injEq] at hc
              subst hc; decide)]
        dsimp only
        rw [skipWs_not_ws _ (by decide)]
        simp only [Char.reduceEq, reduceIte, reduceCtorEq]
        rw [skipWs_space]
        obtain ⟨c, t, hct, hcw, _, _, _⟩ := render_head y
        obtain ⟨T, hT⟩ : ∃ T, renderElems (y :: ys) ++ ']' :: rest = c :: T := by
          cases ys with
          | nil => exact ⟨t ++ ']' :: rest, by rw [renderElems_single, hct]; simp⟩
          | cons z zs =>
            exact ⟨t ++ (chars ", " ++ renderElems (z :: zs)) ++ ']' :: rest, by
              rw [renderElems_cons2, hct]; simp⟩
        rw [hT, skipWs_not_ws _ hcw, ← hT]
        rw [IHQ y ys (x :: acc) rest hwy hsy]
        simp
    · -- parseObjItems on rendered fields
      intro k v fs acc rest hwf hsize
      have hwk : wfChars k = true := by
        have h := hwf
        simp only [wfFields, Bool.and_eq_true] at h
        exact h.1.1
      have hwv : wfJson v = true := by
        have h := hwf
        simp only [wfFields, Bool.and_eq_true] at h
        exact h.1.2
      have hsv : jsize v ≤ fuel := by simp only [fsize] at hsize; omega
      cases fs with
      | nil =>
        rw [renderFields_single]
        rw [show ('"' :: (escape k ++ ['"']) ++ chars ": " ++ render v) ++ '}' :: rest
              = '"' :: (escape k ++ '"' :: (':' :: (' ' :: (render v ++ '}' :: rest)))) by
          simp [chars]]
        rw [parseObjItems]
        rw [parseStrGo_round k hwk [] (':' :: (' ' :: (render v ++ '}' :: rest)))]
        dsimp only
        rw [skipWs_not_ws _ (by decide)]
        simp only [Char.reduceEq, reduceIte, reduceCtorEq]
        rw [show parseVal fuel (' ' :: (render v ++ '}' :: rest))
              = parseVal fuel (render v ++ '}' :: rest) from
            parseVal_skip fuel [' '] _ (by intro c hc; simp at hc; subst hc; rfl)]
        rw [IHP v ('}' :: rest) hwv hsv
          (by intro c hc; simp only [List.head?_cons, Option.some.injEq] at hc
              subst hc; decide)]
        dsimp only
        rw [skipWs_not_ws _ (by decide)]
        simp
      | cons g gs =>
        obtain ⟨k2, v2⟩ := g
        have hwg : wfFields ((k2, v2) :: gs) = true := by
          simp only [wfFields, Bool.and_eq_true] at hwf ⊢
          exact hwf.2
        have hsg : fsize ((k2, v2) :: gs) ≤ fuel := by
          simp only [fsize] at hsize ⊢
          omega
        rw [renderFields_cons2]
        rw [show ('"' :: (escape k ++ ['"']) ++ chars ": " ++ render v ++ chars ", "
                ++ renderFields ((k2, v2) :: gs)) ++ '}' :: rest
              = '"' :: (escape k ++ '"' :: (':' :: (' ' :: (render v
                  ++ ',' :: (' ' :: (renderFields ((k2, v2) :: gs) ++ '}' :: rest)))))) by
          simp [chars]]
        rw [parseObjItems]
        rw [parseStrGo_round k hwk []]
        dsimp only
        rw [skipWs_not_ws _ (by decide)]
        simp only [Char.reduceEq, reduceIte, reduceCtorEq]
        rw [show parseVal fuel (' ' :: (render v
                ++ ',' :: (' ' :: (renderFields ((k2, v2) :: gs) ++ '}' :: rest))))
              = parseVal fuel (render v
                ++ ',' :: (' ' :: (renderFields ((k2, v2) :: gs) ++ '}' :: rest))) from
            parseVal_skip fuel [' '] _ (by intro c hc; simp at hc; subst hc; rfl)]
        rw [IHP v _ hwv hsv
          (by intro c hc; simp only [List.head?_cons, Option.some.injEq] at hc
              subst hc; decide)]
        dsimp only
        rw [skipWs_not_ws _ (by decide)]
        simp only [Char.reduceEq, reduceIte, reduceCtorEq]
        rw [skipWs_space]
        obtain ⟨T, hT⟩ : ∃ T, renderFields ((k2, v2) :: gs) ++ '}' :: rest = '"' :: T := by
          cases gs with
          | nil =>
            exact ⟨escape k2 ++ ['"'] ++ chars ": " ++ render v2 ++ '}' :: rest, by
              rw [renderFields_single]; simp⟩
          | cons g2 gs2 =>
            exact ⟨escape k2 ++ ['"'] ++ chars ": " ++ render v2 ++ chars ", "
                ++ renderFields (g2 :: gs2) ++ '}' :: rest, by
              rw [renderFields_cons2]; simp⟩
        rw [hT, skipWs_not_ws _ (by decide), ← hT]
        simp only [List.reverse_nil, List.nil_append]
        rw [IHR k2 v2 gs ((k, v) :: acc) rest hwg hsg]
        simp

end RoundTrip

section FuelBounds

mutual

theorem jsize_le_render : ∀ v : Json, jsize v ≤ 2 * (render v).length
  | Json.null => by simp [jsize, render, chars]
  | Json.bool b => by cases b <;> simp [jsize, render, chars]
  | Json.num i => by
    obtain ⟨c, t, hct, _, _, _, _⟩ := render_head (Json.num i)
    simp only [jsize, hct, List.length_cons]
    omega
  | Json.str s => by
    simp only [jsize, render, List.length_cons, List.length_append]
    omega
  | Json.arr es => by
    have h := lsize_le_render es
    simp only [jsize, render, List.length_cons, List.length_append]
    omega
  | Json.obj fs => by
    have h := fsize_le_render fs
    simp only [jsize, render, List.length_cons, List.length_append]
    omega

theorem lsize_le_render : ∀ es : List Json, lsize es ≤ 2 * (renderElems es).length + 2
  | [] => by simp [lsize]
  | [x] => by
    have h := jsize_le_render x
    rw [renderElems_single]
    simp only [lsize]
    omega
  | x :: y :: ys => by
    have h1 := jsize_le_render x
    have h2 := lsize_le_render (y :: ys)
    rw [lsize, renderElems_cons2]
    have hc2 : (chars ", ").length = 2 := rfl
    simp only [List.length_append, hc2]
    omega

theorem fsize_le_render :
    ∀ fs : List (List Char × Json), fsize fs ≤ 2 * (renderFields fs).length + 2
  | [] => by simp [fsize]
  | [(k, v)] => by
    have h := jsize_le_render v
    rw [renderFields_single]
    simp only [fsize, List.length_append, List.length_cons]
    omega
  | (k, v) :: f :: fs => by
    have h1 := jsize_le_render v
    have h2 := fsize_le_render (f :: fs)
    rw [fsize, renderFields_cons2]
    have hc2 : (chars ", ").length = 2 := rfl
    have hc3 : (chars ": ").length = 2 := rfl
    simp only [List.length_append, List.length_cons, hc2, hc3]
    omega

end

theorem parseJson_render (v : Json) (hwf : wfJson v = true) : parseJson (render v) = some v := by
  unfold parseJson
  have hfuel : jsize v ≤ 2 * (render v).length + 2 := by
    have := jsize_le_render v
    omega
  have hp := (parse_render_all (2 * (render v).length + 2)).1 v [] hwf hfuel
    (by intro c hc; simp at hc)
  rw [List.append_nil] at hp
  rw [hp]
  simp [skipWs]

end FuelBounds

section FenceExtraction

theorem containsSub_of_hasLead {p s : List Char} (h : hasLead p s = true) :
    containsSub p s = true := by
  cases s with
  | nil =>
    cases p with
    | nil => rfl
    | cons c cs => simp [hasLead] at h
  | cons c cs => simp [containsSub, h]

theorem splitGo_noSub (sep : List Char) :
    ∀ (s : List Char) (fuel : ℕ) (acc : List Char), containsSub sep s = false →
      splitGo sep fuel s acc = [acc.reverse ++ s]
  | s, 0, acc, _ => by simp [splitGo]
  | [], fuel + 1, acc, _ => by simp [splitGo]
  | c :: cs, fuel + 1, acc, h => by
    have hsplit : hasLead sep (c :: cs) = false ∧ containsSub sep cs = false := by
      simpa [containsSub] using h
    rw [splitGo, hsplit.1]
    simp only [Bool.false_eq_true, if_false]
    rw [splitGo_noSub sep cs fuel (c :: acc) hsplit.2]
    simp

theorem splitGo_boundary' {b : Char} {p x y acc : List Char} {F : ℕ}
    (hx : ∀ c ∈ x, c ≠ b) (hF : x.length + 1 ≤ F) :
    splitGo (b :: p) F (x ++ (b :: p) ++ y) acc
      = (acc.reverse ++ x) :: splitGo (b :: p) (F - x.length - 1) y [] := by
  obtain ⟨f, rfl⟩ : ∃ f, F = x.length + 1 + f := ⟨F - x.length - 1, by omega⟩
  rw [splitGo_boundary p x f y acc hx]
  congr 2
  omega

theorem noBt_mem {s : List Char} (h : noBt s = true) : ∀ c ∈ s, c ≠ btChar := by
  intro c hc
  simp only [noBt, List.all_eq_true] at h
  have := h c hc
  simpa using this

theorem charsJsonFence : chars "```json" = btChar :: chars "``json" := rfl

theorem charsFence : chars "```" = btChar :: chars "``" := rfl

theorem newline_ne_bt : ('\n' : Char) ≠ btChar := by decide

/-- Unfenced text: the fence-peeling step is the identity. -/
theorem extractFenced_id (t : List Char) (ht : noBt t = true) : extractFenced t = t := by
  unfold extractFenced
  dsimp only
  rw [charsJsonFence, charsFence]
  rw [containsSub_none _ t (noBt_mem ht), containsSub_none _ t (noBt_mem ht)]
  simp

/-- A ```` ```json ```` fenced body is extracted exactly (with the newlines
the code fence adds, which `strip` later removes). -/
theorem extractFenced_jsonFence (r : List Char) (hr : noBt r = true) :
    extractFenced (wrapJsonFence r) = '\n' :: (r ++ ['\n']) := by
  have hmid : ∀ c ∈ '\n' :: (r ++ ['\n']), c ≠ btChar := by
    intro c hc
    simp only [List.mem_cons, List.mem_append] at hc
    rcases hc with rfl | hc | rfl | hc
    · exact newline_ne_bt
    · exact noBt_mem hr c hc
    · exact newline_ne_bt
    · simp at hc
  have hshape : wrapJsonFence r
      = [] ++ (btChar :: chars "``json") ++ (('\n' :: (r ++ ['\n'])) ++ chars "```") := by
    rw [wrapJsonFence, charsJsonFence]
    simp
  have hcont : containsSub (chars "```json") (wrapJsonFence r) = true := by
    rw [charsJsonFence]
    apply containsSub_of_hasLead
    rw [show wrapJsonFence r
        = (btChar :: chars "``json") ++ ('\n' :: (r ++ '\n' :: chars "```")) by
      rw [wrapJsonFence, charsJsonFence]; simp]
    exact hasLead_append _ _
  unfold extractFenced
  dsimp only
  rw [hcont]
  simp only [if_true]
  have hnosub : containsSub (btChar :: chars "``json")
      (('\n' :: (r ++ ['\n'])) ++ chars "```") = false := by
    rw [show ('\n' :: (r ++ ['\n'])) ++ chars "```"
          = '\n' :: (r ++ (['\n'] ++ chars "```")) by simp]
    rw [show containsSub (btChar :: chars "``json")
            ('\n' :: (r ++ (['\n'] ++ chars "```")))
          = containsSub (btChar :: chars "``json") (r ++ (['\n'] ++ chars "```")) by
      simp [containsSub, hasLead, btChar]]
    rw [containsSub_skip _ _ r (noBt_mem hr)]
    rfl
  have hsplit1 : splitOnSub (chars "```json") (wrapJsonFence r)
      = [[], ('\n' :: (r ++ ['\n'])) ++ chars "```"] := by
    unfold splitOnSub
    rw [charsJsonFence]
    conv_lhs => rw [hshape]
    rw [splitGo_boundary' (by simp) (by simp)]
    rw [splitGo_noSub _ _ _ _ hnosub]
    simp
  rw [hsplit1]
  simp only [List.getD_cons_succ, List.getD_cons_zero]
  have hsplit2 : splitOnSub (chars "```") (('\n' :: (r ++ ['\n'])) ++ chars "```")
      = ['\n' :: (r ++ ['\n']), []] := by
    unfold splitOnSub
    rw [charsFence]
    rw [show ('\n' :: (r ++ ['\n'])) ++ (btChar :: chars "``")
          = ('\n' :: (r ++ ['\n'])) ++ (btChar :: chars "``") ++ [] by simp]
    rw [splitGo_boundary' hmid (by simp)]
    rw [splitGo_nil]
    simp
  rw [hsplit2]
  simp

/-- A plain ```` ``` ```` fenced body is extracted exactly. -/
theorem extractFenced_fence (r : List Char) (hr : noBt r = true) :
    extractFenced (wrapFence r) = '\n' :: (r ++ ['\n']) := by
  have hmid : ∀ c ∈ '\n' :: (r ++ ['\n']), c ≠ btChar := by
    intro c hc
    simp only [List.mem_cons, List.mem_append] at hc
    rcases hc with rfl | hc | rfl | hc
    · exact newline_ne_bt
    · exact noBt_mem hr c hc
    · exact newline_ne_bt
    · simp at hc
  have hnoj : containsSub (chars "```json") (wrapFence r) = false := by
    rw [show wrapFence r
          = btChar :: btChar :: btChar :: ('\n' :: (r ++ (['\n'] ++ chars "```"))) by
      rw [wrapFence]; simp [chars, btChar]]
    rw [show containsSub (chars "```json")
            (btChar :: btChar :: btChar :: ('\n' :: (r ++ (['\n'] ++ chars "```"))))
          = containsSub (chars "```json") (r ++ (['\n'] ++ chars "```")) by
      simp [containsSub, hasLead, chars, btChar]]
    rw [charsJsonFence]
    rw [containsSub_skip _ _ r (noBt_mem hr)]
    rfl
  have hcont : containsSub (chars "```") (wrapFence r) = true := by
    apply containsSub_of_hasLead
    rw [show wrapFence r = chars "```" ++ ('\n' :: (r ++ '\n' :: chars "```")) by
      rw [wrapFence]; simp]
    exact hasLead_append _ _
  unfold extractFenced
  dsimp only
  rw [hnoj, hcont]
  simp only [Bool.false_eq_true, if_false, if_true]
  have hsplit1 : splitOnSub (chars "```") (wrapFence r)
      = [[], '\n' :: (r ++ ['\n']), []] := by
    unfold splitOnSub
    rw [show wrapFence r
          = [] ++ (btChar :: chars "``")
              ++ (('\n' :: (r ++ ['\n'])) ++ ((btChar :: chars "``") ++ [])) by
      rw [wrapFence, charsFence]; simp]
    rw [charsFence]
    rw [splitGo_boundary' (by simp) (by simp)]
    rw [show ('\n' :: (r ++ ['\n'])) ++ ((btChar :: chars "``") ++ [])
          = ('\n' :: (r ++ ['\n'])) ++ (btChar :: chars "``") ++ [] by simp]
    rw [splitGo_boundary' hmid (by
      have h2 : (chars "``").length = 2 := rfl
      simp only [List.length_cons, List.length_append, h2]
      omega)]
    rw [splitGo_nil]
    simp
  rw [hsplit1]
  simp only [List.getD_cons_succ, List.getD_cons_zero]
  have hnosub2 : containsSub (btChar :: chars "``") ('\n' :: (r ++ ['\n'])) = false :=
    containsSub_none _ _ hmid
  have hsplit2 : splitOnSub (chars "```") ('\n' :: (r ++ ['\n']))
      = ['\n' :: (r ++ ['\n'])] := by
    unfold splitOnSub
    rw [charsFence]
    rw [splitGo_noSub _ _ _ _ hnosub2]
    simp
  rw [hsplit2]
  simp

end FenceExtraction

section ResponseParserClaims

/-- C7 (amended): for every JSON object (in the modelled fragment:
integer numbers, printable-ASCII-plus-`\n\t\r` strings, distinct keys)
whose `json.dumps` serialization contains no backtick, `parse_json_response`
round-trips it losslessly — plain, ```` ```json ````-fenced, or
```` ``` ````-fenced; and on every input whose extracted body `json.loads`
rejects, it raises `ValueError` and returns nothing.  (The backtick
restriction is forced: `parse_json_response_fence_loss` shows the claim
fails as stated when the serialized object contains a ```` ``` ````.) -/
theorem parse_json_response_round_trip :
    (∀ fs : List (List Char × Json),
        wfJson (Json.obj fs) = true →
        noBt (render (Json.obj fs)) = true →
        parse_json_response (render (Json.obj fs)) = Except.ok (Json.obj fs) ∧
        parse_json_response (wrapJsonFence (render (Json.obj fs)))
          = Except.ok (Json.obj fs) ∧
        parse_json_response (wrapFence (render (Json.obj fs)))
          = Except.ok (Json.obj fs)) ∧
    (∀ t : List Char,
        (∃ j, parse_json_response t = Except.ok j
            ∧ parseJson (pyStrip (extractFenced t)) = some j) ∨
        (parse_json_response t = Except.error "Invalid JSON response from LLM"
            ∧ parseJson (pyStrip (extractFenced t)) = none)) := by
  constructor
  · intro fs hwf hbt
    have hshape : render (Json.obj fs) = '{' :: (renderFields fs ++ ['}']) := by
      simp [render]
    have hstrip_id : pyStrip (render (Json.obj fs)) = render (Json.obj fs) := by
      rw [hshape]
      exact pyStrip_keep (renderFields fs) (by decide) (by decide)
    have hpj := parseJson_render (Json.obj fs) hwf
    refine ⟨?_, ?_, ?_⟩
    · unfold parse_json_response
      rw [extractFenced_id _ hbt, hstrip_id, hpj]
    · unfold parse_json_response
      rw [extractFenced_jsonFence _ hbt]
      rw [show '\n' :: (render (Json.obj fs) ++ ['\n'])
            = '\n' :: ((('{' :: renderFields fs) ++ ['}']) ++ ['\n']) by rw [hshape]; simp]
      rw [@pyStrip_wrap '{' '}' (renderFields fs) (by decide) (by decide)]
      rw [show ('{' :: renderFields fs) ++ ['}'] = '{' :: (renderFields fs ++ ['}']) by simp]
      rw [← hshape, hpj]
    · unfold parse_json_response
      rw [extractFenced_fence _ hbt]
      rw [show '\n' :: (render (Json.obj fs) ++ ['\n'])
            = '\n' :: ((('{' :: renderFields fs) ++ ['}']) ++ ['\n']) by rw [hshape]; simp]
      rw [@pyStrip_wrap '{' '}' (renderFields fs) (by decide) (by decide)]
      rw [show ('{' :: renderFields fs) ++ ['}'] = '{' :: (renderFields fs ++ ['}']) by simp]
      rw [← hshape, hpj]
  · intro t
    unfold parse_json_response
    cases h : parseJson (pyStrip (extractFenced t)) with
    | some j => exact Or.inl ⟨j, rfl, rfl⟩
    | none => exact Or.inr ⟨rfl, rfl⟩

/-- C7 counterexample: the object `{"a": "``` x"}` is a JSON object whose
serialization is perfectly valid JSON (`parseJson` accepts it), yet
`parse_json_response` mangles it through the fence-peeling `split` and
raises `ValueError` instead of round-tripping it — so the claim as stated
(every JSON object, unfenced included) is false. -/
theorem parse_json_response_fence_loss :
    parseJson (render (Json.obj [(chars "a", Json.str (chars "``` x"))]))
      = some (Json.obj [(chars "a", Json.str (chars "``` x"))]) ∧
    parse_json_response (render (Json.obj [(chars "a", Json.str (chars "``` x"))]))
      = Except.error "Invalid JSON response from LLM" := by
  have hr : render (Json.obj [(chars "a", Json.str (chars "``` x"))])
      = chars "\x7b\"a\": \"``` x\"\x7d" := by
    simp [render, renderFields, escape, escChar, chars]
  rw [hr]
  exact ⟨rfl, rfl⟩

/-- C7 witness: a concrete object satisfying the amended hypotheses, with
the fenced round trip evaluated. -/
theorem parse_json_response_round_trip_witness :
    (wfJson (Json.obj [(chars "a", Json.num 1)]) = true
      ∧ noBt (render (Json.obj [(chars "a", Json.num 1)])) = true)
    ∧ parse_json_response (wrapJsonFence (render (Json.obj [(chars "a", Json.num 1)])))
        = Except.ok (Json.obj [(chars "a", Json.num 1)]) := by
  have hwf : wfJson (Json.obj [(chars "a", Json.num 1)]) = true := by
    simp [wfJson, wfFields, wfChars, nodupKeys, chars]
  have hr : render (Json.obj [(chars "a", Json.num 1)]) = chars "\x7b\"a\": 1\x7d" := by
    simp [render, renderFields, escape, escChar, intChars, digitChars, chars]
  have hbt : noBt (render (Json.obj [(chars "a", Json.num 1)])) = true := by
    rw [hr]; rfl
  exact ⟨⟨hwf, hbt⟩, (parse_json_response_round_trip.1 _ hwf hbt).2.1⟩

/-- C10: a markdown-fenced JSON array — not an object — is returned
successfully as a non-dict value by `parse_json_response`, so the declared
dict contract only holds when the embedded top-level value is an object. -/
theorem parse_json_response_non_dict :
    parse_json_response (chars "```json\n[1, 2]\n```")
      = Except.ok (Json.arr [Json.num 1, Json.num 2])
    ∧ ∀ fields : List (List Char × Json),
        Json.arr [Json.num 1, Json.num 2] ≠ Json.obj fields := by
  refine ⟨rfl, ?_⟩
  intro fields h
  cases h

end ResponseParserClaims

section QualityGateClaims

/-- C4: if the wall-clock time elapsed since `start_time` already exceeds
`timeout_minutes` when `apply_gate` is entered, it returns immediately —
the instrumentation state records no evaluator call and no synthesizer
call, only the one clock reading — with the input insights unchanged, all
scores zero, and `passed = False`, for every `retry_count` and every
retry budget. -/
theorem apply_gate_timeout_guard (env : GateEnv) (gate : QualityGateM) (args : GateArgs)
    (fuel : ℕ) (insights : Json) (retry_count : ℕ) (start : ℚ) (st : GateState)
    (hfuel : 0 < fuel)
    (htime : env.clock st.clockCalls - start > gate.timeout_seconds) :
    apply_gate env gate args fuel insights retry_count (some start) st
      = (Except.ok (insights, zeroScores, false),
         { st with clockCalls := st.clockCalls + 1 }) := by
  obtain ⟨f, rfl⟩ : ∃ f, fuel = f + 1 := ⟨fuel - 1, by omega⟩
  unfold apply_gate
  dsimp only
  rw [apply_gate_go]
  rw [if_pos htime]

/-- C4 witness: a concrete late start time. -/
theorem apply_gate_timeout_guard_witness :
    (0 < 3 ∧
      (GateEnv.mk (fun _ => (1000 : ℚ)) (fun _ _ => zeroScores)
          (fun _ _ => Json.obj [])).clock 0 - 0
        > (QualityGateM.mk 2 900 0.7).timeout_seconds) ∧
    apply_gate
        (GateEnv.mk (fun _ => (1000 : ℚ)) (fun _ _ => zeroScores) (fun _ _ => Json.obj []))
        (QualityGateM.mk 2 900 0.7) (GateArgs.mk [] [] (Json.obj []))
        3 (Json.arr []) 1 (some 0) (GateState.mk 0 0 [])
      = (Except.ok (Json.arr [], zeroScores, false), GateState.mk 1 0 []) := by
  refine ⟨⟨by norm_num, by norm_num⟩, ?_⟩
  exact apply_gate_timeout_guard _ _ _ 3 (Json.arr []) 1 0 (GateState.mk 0 0 [])
    (by norm_num) (by norm_num)

theorem apply_gate_go_retry_step (env : GateEnv) (gate : QualityGateM) (args : GateArgs)
    (f : ℕ) (l : List Json) (rc : ℕ) (start : ℚ) (st : GateState) (ri : Json)
    (htime : ¬(env.clock st.clockCalls - start > gate.timeout_seconds))
    (hfail : passes_quality_gate gate.min_score
        (env.evalDigest st.evalCalls (Json.arr l)) = false)
    (hrc : rc < gate.max_retries)
    (hsy : pyGetItem
        (env.synth st.synthCalls.length
          (SynthCall.mk args.retrieved_chunks args.learning_context args.query
            l.length true)) "insights" = Except.ok ri) :
    apply_gate_go env gate args (f + 1) (Json.arr l) rc start st
      = apply_gate_go env gate args f ri (rc + 1) start
          (GateState.mk (st.clockCalls + 1) (st.evalCalls + 1)
            (st.synthCalls ++
              [SynthCall.mk args.retrieved_chunks args.learning_context args.query
                l.length true])) := by
  rw [apply_gate_go]
  dsimp only
  rw [if_neg htime]
  rw [if_neg (by rw [hfail]; exact Bool.false_ne_true)]
  rw [if_pos hrc]
  dsimp only [pyLen]
  rw [hsy]

theorem apply_gate_go_exhausted_step (env : GateEnv) (gate : QualityGateM) (args : GateArgs)
    (f : ℕ) (l : List Json) (rc : ℕ) (start : ℚ) (st : GateState)
    (htime : ¬(env.clock st.clockCalls - start > gate.timeout_seconds))
    (hfail : passes_quality_gate gate.min_score
        (env.evalDigest st.evalCalls (Json.arr l)) = false)
    (hrc : ¬rc < gate.max_retries) :
    apply_gate_go env gate args (f + 1) (Json.arr l) rc start st
      = (Except.ok (Json.arr l, env.evalDigest st.evalCalls (Json.arr l), false),
         GateState.mk (st.clockCalls + 1) (st.evalCalls + 1) st.synthCalls) := by
  rw [apply_gate_go]
  dsimp only
  rw [if_neg htime]
  rw [if_neg (by rw [hfail]; exact Bool.false_ne_true)]
  rw [if_neg hrc]

/-- C3: with `max_retries = 2`, when every evaluation fails the gate and
the clock stays inside the timeout, `apply_gate` performs exactly 3
evaluations and exactly 2 synthesizer calls — each stricter, with the same
retrieved chunks, and `num_insights` equal to the count of the insights
being retried — and returns the last-generated insights with their (third)
failing scores and `passed = False`. -/
theorem apply_gate_exhausts_retries (env : GateEnv) (gate : QualityGateM) (args : GateArgs)
    (l0 : List Json)
    (hmr : gate.max_retries = 2)
    (hfail : ∀ k j, passes_quality_gate gate.min_score (env.evalDigest k j) = false)
    (hsynth : ∀ k c, ∃ l : List Json,
        pyGetItem (env.synth k c) "insights" = Except.ok (Json.arr l))
    (hclock : ∀ t : ℕ, 1 ≤ t → t ≤ 3 →
        env.clock t - env.clock 0 ≤ gate.timeout_seconds) :
    ∃ l1 l2 : List Json,
      pyGetItem (env.synth 0
          (SynthCall.mk args.retrieved_chunks args.learning_context args.query
            l0.length true)) "insights" = Except.ok (Json.arr l1) ∧
      pyGetItem (env.synth 1
          (SynthCall.mk args.retrieved_chunks args.learning_context args.query
            l1.length true)) "insights" = Except.ok (Json.arr l2) ∧
      QualityGate_apply_gate env gate args (Json.arr l0)
        = (Except.ok (Json.arr l2, env.evalDigest 2 (Json.arr l2), false),
           GateState.mk 4 3
             [SynthCall.mk args.retrieved_chunks args.learning_context args.query
                l0.length true,
              SynthCall.mk args.retrieved_chunks args.learning_context args.query
                l1.length true]) := by
  obtain ⟨l1, h1⟩ := hsynth 0
    (SynthCall.mk args.retrieved_chunks args.learning_context args.query l0.length true)
  obtain ⟨l2, h2⟩ := hsynth 1
    (SynthCall.mk args.retrieved_chunks args.learning_context args.query l1.length true)
  refine ⟨l1, l2, h1, h2, ?_⟩
  unfold QualityGate_apply_gate apply_gate
  dsimp only
  rw [hmr]
  rw [apply_gate_go_retry_step env gate args 2 l0 0 (env.clock 0) (GateState.mk 1 0 [])
    (Json.arr l1)
    (not_lt.mpr (hclock 1 (by norm_num) (by norm_num)))
    (hfail 0 (Json.arr l0))
    (by rw [hmr]; norm_num)
    (by simpa using h1)]
  rw [show ([] ++ [SynthCall.mk args.retrieved_chunks args.learning_context args.query
        l0.length true])
      = [SynthCall.mk args.retrieved_chunks args.learning_context args.query
          l0.length true] by simp]
  rw [apply_gate_go_retry_step env gate args 1 l1 1 (env.clock 0)
    (GateState.mk 2 1
      [SynthCall.mk args.retrieved_chunks args.learning_context args.query l0.length true])
    (Json.arr l2)
    (not_lt.mpr (hclock 2 (by norm_num) (by norm_num)))
    (hfail 1 (Json.arr l1))
    (by rw [hmr]; norm_num)
    (by simpa using h2)]
  norm_num
  rw [apply_gate_go_exhausted_step env gate args 0 l2 2 (env.clock 0)
    (GateState.mk 3 2
      [SynthCall.mk args.retrieved_chunks args.learning_context args.query l0.length true,
       SynthCall.mk args.retrieved_chunks args.learning_context args.query l1.length true])
    (not_lt.mpr (hclock 3 (by norm_num) (by norm_num)))
    (hfail 2 (Json.arr l2))
    (by rw [hmr]; norm_num)]

/-- C3 witness: a constant-failure evaluator, a synthesizer returning an
empty insight list, a frozen clock. -/
theorem apply_gate_exhausts_retries_witness :
    QualityGate_apply_gate
        (GateEnv.mk (fun _ => (0 : ℚ)) (fun _ _ => zeroScores)
          (fun _ _ => Json.obj [(chars "insights", Json.arr [])]))
        (QualityGateM.mk 2 900 0.7) (GateArgs.mk [] [] (Json.obj []))
        (Json.arr [])
      = (Except.ok (Json.arr [], zeroScores, false),
         GateState.mk 4 3
           [SynthCall.mk [] (Json.obj []) [] 0 true,
            SynthCall.mk [] (Json.obj []) [] 0 true]) := by
  have h := apply_gate_exhausts_retries
    (GateEnv.mk (fun _ => (0 : ℚ)) (fun _ _ => zeroScores)
      (fun _ _ => Json.obj [(chars "insights", Json.arr [])]))
    (QualityGateM.mk 2 900 0.7) (GateArgs.mk [] [] (Json.obj []))
    [] rfl (fun _ _ => by norm_num [passes_quality_gate, zeroScores]) (fun _ _ => ⟨[], rfl⟩)
    (fun _ _ _ => by norm_num)
  obtain ⟨l1, l2, h1, h2, h3⟩ := h
  have e1 : ([] : List Json) = l1 := by
    have hx : (Except.ok (Json.arr []) : Except PyErr Json) = Except.ok (Json.arr l1) := by
      rw [← h1]; rfl
    injection hx with hh
    injection hh
  subst e1
  have e2 : ([] : List Json) = l2 := by
    have hx : (Except.ok (Json.arr []) : Except PyErr Json) = Except.ok (Json.arr l2) := by
      rw [← h2]; rfl
    injection hx with hh
    injection hh
  subst e2
  exact h3

end QualityGateClaims

section PlanFallbackClaims

/-- C6 — counterexample to the exact wording: on an LLM failure with
message `boom`, the synthetic plan's `reasoning` is the string
`Error in planning: boom` — it carries the exception message appended
after a colon — and is not the bare string `Error in planning` the claim
states. -/
theorem step_plan_reasoning_not_literal :
    step_plan (Except.error "boom") = plan_fallback "boom" ∧
    jget (step_plan (Except.error "boom")) "reasoning" Json.null
      = Json.str (chars "Error in planning: boom") ∧
    jget (step_plan (Except.error "boom")) "reasoning" Json.null
      ≠ Json.str (chars "Error in planning") := by
  refine ⟨rfl, rfl, fun h => ?_⟩
  have h2 : chars "Error in planning: boom" = chars "Error in planning" := by
    have h1 : jget (step_plan (Except.error "boom")) "reasoning" Json.null
        = Json.str (chars "Error in planning: boom") := rfl
    injection h1.symm.trans h
  exact absurd h2 (by decide)

/-- C6 (amended): whenever the PLAN phase's LLM call or JSON parse fails
with message `e`, `StepExecutor.plan` returns — instead of raising — the
synthetic plan with `action_type` `COMPLETE`, `reasoning` beginning
`Error in planning: ` followed by the message, and an `output` dict
carrying the error message and type `planning_error`; consequently the
controller terminates that iteration cleanly with status `completed` and
that error output. -/
theorem step_plan_fallback_plan (llm : Except PyErr (List Char)) (e : PyErr)
    (h : (do
        let t ← llm
        parse_json_response (pyStrip t) : Except PyErr Json) = Except.error e) :
    step_plan llm = plan_fallback e ∧
    jget (plan_fallback e) "action_type" Json.null = jstr "COMPLETE" ∧
    jget (plan_fallback e) "reasoning" Json.null
      = Json.str (chars "Error in planning: " ++ e.toList) ∧
    jget (plan_fallback e) "output" Json.null
      = Json.obj [(chars "error", Json.str e.toList),
          (chars "type", jstr "planning_error")] ∧
    (∀ env goal uid iter ctx ls, env.llmPlan iter = llm →
      ∃ r ls2, runIter (stepExecOf env) goal uid iter ctx ls
          = (IterOut.ret r, ls2, 1) ∧
        r.status = "completed" ∧
        r.output = Json.obj [(chars "error", Json.str e.toList),
          (chars "type", jstr "planning_error")] ∧
        r.iteration_count = iter) := by
  have hstep : step_plan llm = plan_fallback e := by
    simp only [step_plan, h]
  have htl : ("Error in planning: " ++ e).toList
      = chars "Error in planning: " ++ e.toList := by
    simp [chars, String.toList]
  refine ⟨hstep, rfl, ?_, rfl, ?_⟩
  · have hr : jget (plan_fallback e) "reasoning" Json.null
        = Json.str (("Error in planning: " ++ e).toList) := rfl
    rw [hr, htl]
  · intro env goal uid iter ctx ls hllm
    obtain ⟨c1, l1, hsense⟩ : ∃ c1 l1,
        (if iter = 1 then (stepExecOf env).sense uid ctx iter ls
         else (Except.ok ctx, ls)) = (Except.ok c1, l1) := by
      by_cases hiter : iter = 1
      · rcases hse : exec_sense env uid ctx iter ls with ⟨c1, l1⟩
        rw [if_pos hiter]
        exact ⟨c1, l1, by simp [stepExecOf, hse]⟩
      · rw [if_neg hiter]; exact ⟨ctx, ls, rfl⟩
    have key : runIter (stepExecOf env) goal uid iter ctx ls
        = (IterOut.ret (handle_completion (plan_fallback e) iter
              (logPhase "PLAN" l1)).1,
           (handle_completion (plan_fallback e) iter (logPhase "PLAN" l1)).2, 1) := by
      unfold runIter
      rw [hsense]
      simp only [stepExecOf, exec_plan, hllm, hstep]
      rfl
    exact ⟨_, _, key, rfl, rfl, rfl⟩

/-- C6 — witness: a concrete failing LLM (`boom`) instantiating both the
fallback-plan facts and the clean controller termination. -/
theorem step_plan_fallback_plan_witness :
    step_plan (Except.error "boom") = plan_fallback "boom" ∧
    (∃ r ls2, runIter (stepExecOf envBoom) (chars "g") (chars "u") 1
        (initCtx (chars "u")) initLog = (IterOut.ret r, ls2, 1) ∧
      r.status = "completed" ∧
      r.output = Json.obj [(chars "error", Json.str ("boom" : String).toList),
        (chars "type", jstr "planning_error")] ∧
      r.iteration_count = 1) :=
  ⟨(step_plan_fallback_plan (Except.error "boom") "boom" rfl).1,
   (step_plan_fallback_plan (Except.error "boom") "boom" rfl).2.2.2.2 envBoom
     (chars "g") (chars "u") 1 (initCtx (chars "u")) initLog rfl⟩

end PlanFallbackClaims

section ToolRegistryClaims

/-- Membership gives `List.contains` over `List Char` keys. -/
theorem contains_of_mem {x : List Char} {l : List (List Char)} (h : x ∈ l) :
    l.contains x = true := by
  induction l with
  | nil => cases h
  | cons a t ih =>
    rcases List.mem_cons.mp h with rfl | hm
    · simp [List.contains_cons]
    · simp [List.contains_cons]
      exact Or.inr hm

/-- C8 — counterexample: for an unregistered tool name the registry does
let an exception propagate — `execute_tool` raises `ValueError` before its
`try` block, rather than returning an error dict. -/
theorem execute_tool_unknown_tool_raises :
    execute_tool implOk (jstr "bogus") (Json.obj [])
      = Except.error (unknownToolMsg (jstr "bogus")) ∧
    unknownToolMsg (jstr "bogus")
      = "Unknown tool: bogus. Available: get-user-context, search-content, "
        ++ "generate-digest, search-past-insights, sync-progress, web-search, "
        ++ "analyze-content-coverage" := ⟨rfl, rfl⟩

/-- C8 (amended): for every REGISTERED tool name, `execute_tool` never
propagates an implementation exception: it returns the implementation's
dict on success, and converts any raised exception into
`{"error": message, "tool": name}`.  (For unregistered names it raises
`ValueError` instead — see the counterexample.) -/
theorem execute_tool_registry_boundary (impl : List Char → Json → Except PyErr Json)
    (name : List Char) (args : Json) (h : name ∈ toolNames) :
    (∃ r, impl name args = Except.ok r ∧
        execute_tool impl (Json.str name) args = Except.ok r) ∨
    (∃ e, impl name args = Except.error e ∧
        execute_tool impl (Json.str name) args
          = Except.ok (Json.obj [(chars "error", Json.str e.toList),
              (chars "tool", Json.str name)])) := by
  have hc : toolNames.contains name = true := contains_of_mem h
  cases himpl : impl name args with
  | ok r => exact Or.inl ⟨r, rfl, by simp [execute_tool, hc, himpl, h]⟩
  | error e => exact Or.inr ⟨e, rfl, by simp [execute_tool, hc, himpl, h]⟩

/-- C8 — witness: the registered name `web-search` with an always-raising
implementation is converted to the `{"error", "tool"}` dict. -/
theorem execute_tool_registry_boundary_witness :
    (∃ r, (fun (_ : List Char) (_ : Json) =>
          (Except.error "supabase down" : Except PyErr Json))
        (chars "web-search") (Json.obj []) = Except.ok r ∧
      execute_tool (fun _ _ => Except.error "supabase down")
        (Json.str (chars "web-search")) (Json.obj []) = Except.ok r) ∨
    (∃ e, (fun (_ : List Char) (_ : Json) =>
          (Except.error "supabase down" : Except PyErr Json))
        (chars "web-search") (Json.obj []) = Except.error e ∧
      execute_tool (fun _ _ => Except.error "supabase down")
        (Json.str (chars "web-search")) (Json.obj [])
        = Except.ok (Json.obj [(chars "error", Json.str e.toList),
            (chars "tool", Json.str (chars "web-search"))])) :=
  execute_tool_registry_boundary (fun _ _ => Except.error "supabase down")
    (chars "web-search") (Json.obj []) (by decide)

end ToolRegistryClaims

section ControllerLemmas

/-- Each loop iteration performs at most one PLAN invocation. -/
theorem runIter_plans_le_one (ex : StepExec) (goal uid : List Char) (iter : ℕ)
    (ctx : Ctx) (ls : LogState) :
    (runIter ex goal uid iter ctx ls).2.2 ≤ 1 := by
  unfold runIter
  repeat' split
  all_goals simp

/-- An in-loop return is produced by one of the three mid-loop handlers,
and carries that handler's status and the final log list. -/
theorem runIter_ret_status (ex : StepExec) (goal uid : List Char) (iter : ℕ)
    (ctx : Ctx) (ls : LogState) (r : AgentResult) (ls2 : LogState) (p : ℕ)
    (h : runIter ex goal uid iter ctx ls = (IterOut.ret r, ls2, p)) :
    (r.status = "completed" ∨ r.status = "needs_clarification"
      ∨ r.status = "needs_approval") ∧ r.logs = ls2.logs := by
  unfold runIter at h
  repeat' split at h
  all_goals simp only [Prod.mk.injEq, reduceCtorEq, false_and, and_false] at h
  all_goals obtain ⟨h1, h2, h3⟩ := h
  all_goals injection h1 with h1
  all_goals subst h1 h2
  · exact ⟨Or.inl rfl, rfl⟩
  · exact ⟨Or.inr (Or.inl rfl), rfl⟩
  · exact ⟨Or.inr (Or.inr rfl), rfl⟩

/-- The loop performs at most one PLAN invocation per remaining iteration. -/
theorem runLoop_plans_le (ex : StepExec) (goal uid : List Char) :
    ∀ (remaining iter : ℕ) (ctx : Ctx) (ls : LogState) (plans : ℕ),
      (runLoop ex goal uid remaining iter ctx ls plans).2.2.2 ≤ plans + remaining := by
  intro remaining
  induction remaining with
  | zero => intro iter ctx ls plans; simp [runLoop]
  | succ n ih =>
    intro iter ctx ls plans
    have hp := runIter_plans_le_one ex goal uid (iter + 1) ctx ls
    unfold runLoop
    rcases hR : runIter ex goal uid (iter + 1) ctx ls with ⟨out, ls1, p⟩
    rw [hR] at hp
    simp only at hp
    cases out with
    | ret r => simp only []; omega
    | raised e => simp only []; omega
    | cont ctx1 =>
      simp only []
      calc (runLoop ex goal uid n (iter + 1) ctx1 ls1 (plans + p)).2.2.2
          ≤ plans + p + n := ih (iter + 1) ctx1 ls1 (plans + p)
        _ ≤ plans + (n + 1) := by omega

/-- An in-loop return out of the whole loop carries a mid-loop handler
status. -/
theorem runLoop_ret_status (ex : StepExec) (goal uid : List Char) :
    ∀ (remaining iter : ℕ) (ctx : Ctx) (ls : LogState) (plans : ℕ)
      (r : AgentResult) (it : ℕ) (l : LogState) (p : ℕ),
      runLoop ex goal uid remaining iter ctx ls plans = (LoopExit.ret r, it, l, p) →
      (r.status = "completed" ∨ r.status = "needs_clarification"
        ∨ r.status = "needs_approval") ∧ r.logs = l.logs := by
  intro remaining
  induction remaining with
  | zero => intro iter ctx ls plans r it l p h; simp [runLoop] at h
  | succ n ih =>
    intro iter ctx ls plans r it l p h
    unfold runLoop at h
    rcases hR : runIter ex goal uid (iter + 1) ctx ls with ⟨out, ls1, q⟩
    rw [hR] at h
    cases out with
    | ret r' =>
      simp only [Prod.mk.injEq, LoopExit.ret.injEq] at h
      obtain ⟨h1, h2, h3, h4⟩ := h
      subst h1 h3
      exact runIter_ret_status ex goal uid (iter + 1) ctx ls _ _ _ hR
    | raised e => simp at h
    | cont ctx1 => exact ih (iter + 1) ctx1 ls1 (plans + q) r it l p h

/-- C2: for every goal, user id, iteration budget and every behaviour of
the step executor (hence of the LLM client and tool registry behind it),
`AgentController.run` returns an `AgentResult` — the embedding is total, the
outer `try` catching everything the loop raises — whose status is one of
the five terminal statuses; and whenever the loop body raises an uncaught
exception `e`, the result has status `failed` and output
`{"error": str(e)}`. -/
theorem agent_run_never_raises (ex : StepExec) (goal uid : List Char) (N : ℕ) :
    ((run ex goal uid N).1.status = "completed"
      ∨ (run ex goal uid N).1.status = "needs_clarification"
      ∨ (run ex goal uid N).1.status = "needs_approval"
      ∨ (run ex goal uid N).1.status = "timeout"
      ∨ (run ex goal uid N).1.status = "failed") ∧
    (∀ e it l p,
      runLoop ex goal uid N 0 (initCtx uid) initLog 0 = (LoopExit.raised e, it, l, p) →
      (run ex goal uid N).1.status = "failed" ∧
      (run ex goal uid N).1.output
        = Json.obj [(chars "error", Json.str e.toList)]) := by
  constructor
  · unfold run
    rcases hL : runLoop ex goal uid N 0 (initCtx uid) initLog 0 with ⟨exit, it, l, p⟩
    cases exit with
    | ret r =>
      have := (runLoop_ret_status ex goal uid N 0 (initCtx uid) initLog 0 r it l p hL).1
      simp only []
      tauto
    | raised e => exact Or.inr (Or.inr (Or.inr (Or.inr rfl)))
    | fell ctx =>
      rcases hT : ex.genPartial goal ctx l with ⟨g, l2⟩
      cases g with
      | ok out => simp [handle_timeout, hT]
      | error e => simp [handle_timeout, hT, handle_error]
  · intro e it l p h
    unfold run
    rw [h]
    exact ⟨rfl, rfl⟩

/-- C2 — witness: a planning LLM that returns the JSON list `[1, 2]`
makes the loop body raise (`plan.get` on a non-dict) on iteration 1, and
`run` converts this into the `failed` result carrying the message. -/
theorem agent_run_never_raises_witness :
    (run (stepExecOf envList) (chars "g") (chars "u") 2).1.status = "failed" ∧
    (run (stepExecOf envList) (chars "g") (chars "u") 2).1.output
      = Json.obj [(chars "error",
          Json.str ("AttributeError: object has no attribute get" : String).toList)] :=
  (agent_run_never_raises (stepExecOf envList) (chars "g") (chars "u") 2).2
    "AttributeError: object has no attribute get" 1
    { logs := ["SENSE", "PLAN"],
      toolTrace := [("SENSE", 1, jstr "get-user-context")] } 1 rfl

/-- `Except` bind on a success reduces. -/
theorem ok_bind {α β : Type} (a : α) (k : α → Except PyErr β) :
    (Except.ok a >>= k) = k a := rfl

/-- `Except` bind on a failure short-circuits. -/
theorem error_bind {α β : Type} (e : PyErr) (k : α → Except PyErr β) :
    ((Except.error e : Except PyErr α) >>= k) = Except.error e := rfl

/-- Mapping the title-preview builder over a list of dicts succeeds. -/
theorem mapM_titles_ok : ∀ (items : List Json),
    items.all (fun i => match i with | Json.obj _ => true | _ => false) = true →
    ∃ out, items.mapM (fun i =>
      match i with
      | Json.obj fi =>
        Except.ok (Json.obj [("title".toList, objGetD fi "title" (jstr ""))])
      | _ => (Except.error "AttributeError: object has no attribute get" :
          Except PyErr Json)) = Except.ok out := by
  intro items h
  induction items with
  | nil => exact ⟨[], rfl⟩
  | cons a t ih =>
    rw [List.all_cons, Bool.and_eq_true] at h
    obtain ⟨out, hout⟩ := ih h.2
    cases a with
    | obj fa =>
      refine ⟨Json.obj [("title".toList, objGetD fa "title" (jstr ""))] :: out, ?_⟩
      rw [List.mapM_cons, hout]
      rfl
    | null => exact Bool.noConfusion h.1
    | bool b => exact Bool.noConfusion h.1
    | num n => exact Bool.noConfusion h.1
    | str s => exact Bool.noConfusion h.1
    | arr l => exact Bool.noConfusion h.1

/-- Take of an all-dicts list is all dicts. -/
theorem all_objs_take (l : List Json) (n : ℕ)
    (h : l.all (fun i => match i with | Json.obj _ => true | _ => false) = true) :
    (l.take n).all (fun i => match i with | Json.obj _ => true | _ => false) = true := by
  rw [List.all_eq_true] at h ⊢
  intro x hx
  exact h x (List.mem_of_mem_take hx)

/-- On a well-formed tool result, `summarize_result` cannot raise. -/
theorem summarize_wf (f : List (List Char × Json))
    (h : wfToolResult (Json.obj f) = true) :
    ∃ s, summarize_result (Json.obj f) = Except.ok s := by
  unfold wfToolResult at h
  rw [Bool.and_eq_true] at h
  obtain ⟨h1, h2⟩ := h
  unfold summarize_result
  simp only [chars] at h1 h2 ⊢
  rcases e1 : alookup ("error".toList) f with _ | v1 <;>
  rcases e2 : alookup ("results".toList) f with _ | v2 <;>
  rcases e3 : alookup ("insights".toList) f with _ | v3 <;>
  rcases e4 : alookup ("ragas_scores".toList) f with _ | v4 <;>
  rcases e5 : alookup ("week".toList) f with _ | v5 <;>
  rcases e6 : alookup ("topics".toList) f with _ | v6
  all_goals rw [e2] at h1
  all_goals rw [e3] at h2
  all_goals try cases v2
  all_goals try cases v3
  all_goals try exact Bool.noConfusion h1
  all_goals try exact Bool.noConfusion h2
  all_goals simp only [pyContains, pyGetItem, pyLen, pySlice, pyIterList,
    e1, e2, e3, e4, e5, e6, Option.isSome_none, Option.isSome_some,
    Bool.false_eq_true, eq_self_iff_true, if_true, if_false, ite_true, ite_false,
    ok_bind, error_bind]
  all_goals try exact ⟨_, rfl⟩
  all_goals
    obtain ⟨out, hout⟩ := mapM_titles_ok _ (all_objs_take _ 2 h2)
  all_goals rw [hout]
  all_goals exact ⟨_, rfl⟩

/-- Whatever the registry returns successfully is a well-formed tool
result, provided the implementations' successes are. -/
theorem execute_tool_wf (impl : List Char → Json → Except PyErr Json)
    (himpl : ∀ nm a r, impl nm a = Except.ok r → wfToolResult r = true)
    (t a : Json) (r : Json) (h : execute_tool impl t a = Except.ok r) :
    wfToolResult r = true := by
  cases t with
  | str s =>
    simp only [execute_tool] at h
    by_cases hc : toolNames.contains s = true
    · rw [if_pos hc] at h
      cases hi : impl s a with
      | ok r0 =>
        rw [hi] at h
        injection h with h
        subst h
        exact himpl s a r0 hi
      | error e =>
        rw [hi] at h
        injection h with h
        subst h
        rfl
    · rw [if_neg hc] at h
      exact Except.noConfusion h
  | null => simp only [execute_tool] at h; exact Except.noConfusion h
  | bool b => simp only [execute_tool] at h; exact Except.noConfusion h
  | num n => simp only [execute_tool] at h; exact Except.noConfusion h
  | arr l => simp only [execute_tool] at h; exact Except.noConfusion h
  | obj fo => simp only [execute_tool] at h; exact Except.noConfusion h

/-- On a dict plan, ACT never raises and always returns a well-formed
tool result (the skipped dict, the registry's result, or the caught-error
dict), leaving the logs free of terminal entries and tracing at most one
ACT invocation at this iteration. -/
theorem act_wf (env : AgentEnv)
    (himpl : ∀ nm a r, env.impl nm a = Except.ok r → wfToolResult r = true)
    (fp : List (List Char × Json)) (iter : ℕ) (ls : LogState) :
    ∃ res ls2, exec_act env (Json.obj fp) iter ls = (Except.ok res, ls2) ∧
      wfToolResult res = true ∧
      (ls2 = ls ∨ ∃ nm, ls2 = logPhase "ACT" (traceTool "ACT" iter nm ls)) := by
  simp only [exec_act]
  by_cases ha : optIsStr (alookup (chars "action_type") fp) "TOOL_CALL" = true
  · rw [if_neg (by simp [ha])]
    rcases he : execute_tool env.impl ((alookup (chars "tool") fp).getD Json.null)
        ((alookup (chars "args") fp).getD (Json.obj [])) with e | r
    · exact ⟨_, _, rfl, rfl, Or.inr ⟨_, rfl⟩⟩
    · exact ⟨r, _, rfl, execute_tool_wf env.impl himpl _ _ r he, Or.inr ⟨_, rfl⟩⟩
  · rw [if_pos (by simpa using ha)]
    exact ⟨_, _, rfl, rfl, Or.inl rfl⟩

/-- SENSE never raises, leaves the accumulation fields of the context
unchanged, and appends exactly its phase log and its trace entry. -/
theorem sense_fields (env : AgentEnv) (uid : List Char) (ctx : Ctx) (iter : ℕ)
    (ls : LogState) :
    (exec_sense env uid ctx iter ls).1.search_results = ctx.search_results ∧
    (exec_sense env uid ctx iter ls).1.iteration_history = ctx.iteration_history ∧
    (exec_sense env uid ctx iter ls).2
      = logPhase "SENSE" (traceTool "SENSE" iter (jstr "get-user-context") ls) := by
  rcases hx : execute_tool env.impl (jstr "get-user-context")
      (Json.obj [(chars "user_id", Json.str uid)]) with e | u <;>
    simp [exec_sense, hx]

/-- On a dict plan and well-formed result, OBSERVE never raises and logs
its phase. -/
theorem observe_ok (fp fr : List (List Char × Json))
    (h : wfToolResult (Json.obj fr) = true) (iter : ℕ) (ls : LogState) :
    exec_observe (Json.obj fp) (Json.obj fr) iter ls
      = (Except.ok (), logPhase "OBSERVE" ls) := by
  obtain ⟨s, hs⟩ := summarize_wf fr h
  simp only [exec_observe, pyContains, pyGet, ok_bind, hs]
  rcases e : alookup ("error".toList) fr with _ | v
  · simp only [e, Option.isSome_none, Bool.false_eq_true, if_false, ite_false]
    rfl
  · have e2 : alookup (['e', 'r', 'r', 'o', 'r'] : List Char) fr = some v := e
    simp only [e, e2, Option.isSome_some, if_true, ite_true, pyGetItem]
    rfl

/-- On a dict plan and well-formed result, REFLECT never raises (LLM
failures degrade to the fallback string) and logs its phase. -/
theorem reflect_ok (env : AgentEnv) (fp fr : List (List Char × Json))
    (h : wfToolResult (Json.obj fr) = true) (iter : ℕ) (ls : LogState) :
    ∃ refl2, exec_reflect env (Json.obj fp) (Json.obj fr) iter ls
      = (Except.ok refl2, logPhase "REFLECT" ls) := by
  obtain ⟨s, hs⟩ := summarize_wf fr h
  simp only [exec_reflect, pyGet, ok_bind, hs]
  rcases hr : env.llmReflect iter with e | txt
  · exact ⟨_, rfl⟩
  · exact ⟨_, rfl⟩

/-- The search-result accumulation never raises on a dict plan and
well-formed result, keeps the context well-formed, and does not touch the
iteration history. -/
theorem accumSearch_ok (fp fr : List (List Char × Json))
    (hwf : wfToolResult (Json.obj fr) = true) (ctx : Ctx)
    (hctx : wfCtx ctx = true) :
    ∃ ctx2, accumSearch (Json.obj fp) (Json.obj fr) ctx = Except.ok ctx2 ∧
      wfCtx ctx2 = true ∧ ctx2.iteration_history = ctx.iteration_history := by
  unfold wfToolResult at hwf
  rw [Bool.and_eq_true] at hwf
  obtain ⟨h1, h2⟩ := hwf
  simp only [chars] at h1
  unfold accumSearch
  simp only [pyGet, pyContains, ok_bind]
  by_cases ht : optIsStr (alookup ("tool".toList) fp) "search-content" = true
  · rw [if_pos ht]
    rcases e : alookup ("results".toList) fr with _ | v
    · simp only [e, Option.isSome_none, Bool.false_eq_true, if_false, ite_false]
      exact ⟨ctx, rfl, hctx, rfl⟩
    · rw [e] at h1
      cases v with
      | arr l =>
        simp only [e, Option.isSome_some, ok_bind, Option.getD_some, pyIterList,
          if_true, ite_true]
        refine ⟨_, rfl, ?_, rfl⟩
        unfold wfCtx at hctx ⊢
        rw [Bool.and_eq_true] at hctx ⊢
        refine ⟨?_, hctx.2⟩
        simp only [Option.getD_some, List.all_append]
        rw [Bool.and_eq_true]
        exact ⟨hctx.1, h1⟩
      | null => exact Bool.noConfusion h1
      | bool b => exact Bool.noConfusion h1
      | num n => exact Bool.noConfusion h1
      | str s2 => exact Bool.noConfusion h1
      | obj fo => exact Bool.noConfusion h1
  · rw [if_neg ht]
    exact ⟨ctx, rfl, hctx, rfl⟩

/-- Appending a non-terminal phase leaves the terminal-entry count
unchanged. -/
theorem countTerm_logPhase (s : String) (ls : LogState) (h : isTerm s = false) :
    countTerm (logPhase s ls).logs = countTerm ls.logs := by
  simp [countTerm, logPhase, List.countP_append, List.countP_cons, h]

/-- Appending a terminal phase raises the terminal-entry count by one. -/
theorem countTerm_logPhase_term (s : String) (ls : LogState) (h : isTerm s = true) :
    countTerm (logPhase s ls).logs = countTerm ls.logs + 1 := by
  simp [countTerm, logPhase, List.countP_append, List.countP_cons, h]

/-- On a non-terminal dict plan, well-formed tool implementations and a
well-formed context, one loop iteration continues: it performs exactly one
PLAN invocation, adds no terminal log entry, traces tools only at this
iteration, and keeps the context well-formed with the history growing by
its entry. -/
theorem runIter_cont (env : AgentEnv) (goal uid : List Char) (iter : ℕ)
    (ctx : Ctx) (ls : LogState)
    (hplan : nonTerminalPlan (step_plan (env.llmPlan iter)) = true)
    (himpl : ∀ nm a r, env.impl nm a = Except.ok r → wfToolResult r = true)
    (hctx : wfCtx ctx = true) :
    ∃ ctx2 ls2, runIter (stepExecOf env) goal uid iter ctx ls
        = (IterOut.cont ctx2, ls2, 1) ∧
      wfCtx ctx2 = true ∧
      countTerm ls2.logs = countTerm ls.logs ∧
      (∀ t ∈ ls2.toolTrace, t ∈ ls.toolTrace ∨ t.2.1 = iter) := by
  suffices core : ∀ c1 l1, wfCtx c1 = true →
      countTerm l1.logs = countTerm ls.logs →
      (∀ t ∈ l1.toolTrace, t ∈ ls.toolTrace ∨ t.2.1 = iter) →
      (if iter = 1 then (stepExecOf env).sense uid ctx iter ls
        else (Except.ok ctx, ls)) = (Except.ok c1, l1) →
      ∃ ctx2 ls2, runIter (stepExecOf env) goal uid iter ctx ls
          = (IterOut.cont ctx2, ls2, 1) ∧
        wfCtx ctx2 = true ∧
        countTerm ls2.logs = countTerm ls.logs ∧
        (∀ t ∈ ls2.toolTrace, t ∈ ls.toolTrace ∨ t.2.1 = iter) by
    by_cases hiter : iter = 1
    · rcases hse : exec_sense env uid ctx iter ls with ⟨c1, l1⟩
      have hf := sense_fields env uid ctx iter ls
      rw [hse] at hf
      dsimp only at hf
      refine core c1 l1 ?_ ?_ ?_ ?_
      · unfold wfCtx at hctx ⊢
        rw [hf.1, hf.2.1]
        exact hctx
      · rw [hf.2.2]
        exact countTerm_logPhase "SENSE" _ rfl
      · rw [hf.2.2]
        intro t ht
        simp only [logPhase, traceTool] at ht
        rcases List.mem_append.mp ht with h1 | h2
        · exact Or.inl h1
        · exact Or.inr (by rw [List.mem_singleton.mp h2])
      · rw [if_pos hiter]
        simp [stepExecOf, hse]
    · refine core ctx ls hctx rfl (fun t ht => Or.inl ht) ?_
      rw [if_neg hiter]
  intro c1 l1 hc1 hcount htr hS
  cases hP2 : step_plan (env.llmPlan iter) with
  | null => rw [hP2] at hplan; exact Bool.noConfusion hplan
  | bool b => rw [hP2] at hplan; exact Bool.noConfusion hplan
  | num n => rw [hP2] at hplan; exact Bool.noConfusion hplan
  | str s2 => rw [hP2] at hplan; exact Bool.noConfusion hplan
  | arr l2 => rw [hP2] at hplan; exact Bool.noConfusion hplan
  | obj fp =>
    rw [hP2] at hplan
    simp only [nonTerminalPlan] at hplan
    have h3 : optIsStr (alookup ("action_type".toList) fp) "COMPLETE" = false
        ∧ optIsStr (alookup ("action_type".toList) fp) "CLARIFY" = false
        ∧ optIsStr (alookup ("action_type".toList) fp) "PLAN_APPROVAL" = false := by
      rcases ha : alookup (chars "action_type") fp with _ | v
      · have ha2 : alookup ("action_type".toList) fp = none := ha
        rw [ha2]
        exact ⟨rfl, rfl, rfl⟩
      · have ha2 : alookup ("action_type".toList) fp = some v := ha
        rw [ha] at hplan
        dsimp only at hplan
        have hb : (jsonBeq v (jstr "COMPLETE") || jsonBeq v (jstr "CLARIFY")
            || jsonBeq v (jstr "PLAN_APPROVAL")) = false := by
          cases hx : (jsonBeq v (jstr "COMPLETE") || jsonBeq v (jstr "CLARIFY")
              || jsonBeq v (jstr "PLAN_APPROVAL")) with
          | false => rfl
          | true => rw [hx] at hplan; exact Bool.noConfusion hplan
        rw [Bool.or_eq_false_iff, Bool.or_eq_false_iff] at hb
        rw [ha2]
        exact ⟨hb.1.1, hb.1.2, hb.2⟩
    obtain ⟨res, ls3, hact, hwfres, hls3⟩ := act_wf env himpl fp iter (logPhase "PLAN" l1)
    cases res with
    | null => exact Bool.noConfusion hwfres
    | bool b => exact Bool.noConfusion hwfres
    | num n => exact Bool.noConfusion hwfres
    | str s2 => exact Bool.noConfusion hwfres
    | arr l2 => exact Bool.noConfusion hwfres
    | obj fres =>
      obtain ⟨ctx2, hacc, hwf2, hhist⟩ := accumSearch_ok fp fres hwfres c1 hc1
      obtain ⟨refl2, hrefl⟩ := reflect_ok env fp fres hwfres iter
        (logPhase "OBSERVE" ls3)
      have hobs := observe_ok fp fres hwfres iter ls3
      refine ⟨{ ctx2 with
          last_reflection := some refl2,
          iteration_history := ctx2.iteration_history
            ++ [histEntry iter (Json.obj fp) refl2] },
        logPhase "REFLECT" (logPhase "OBSERVE" ls3), ?_, ?_, ?_, ?_⟩
      · unfold runIter
        rw [hS]
        simp only [stepExecOf, exec_plan, hP2, pyGet, h3.1, h3.2.1, h3.2.2,
          Bool.false_eq_true, if_false, ite_false]
        rw [hact]
        try dsimp only [stepExecOf]
        rw [hobs]
        try dsimp only
        rw [hacc]
        try dsimp only
        rw [hrefl]
      · unfold wfCtx at hwf2 ⊢
        dsimp only
        rw [Bool.and_eq_true] at hwf2 ⊢
        refine ⟨hwf2.1, ?_⟩
        rw [List.all_append, Bool.and_eq_true]
        exact ⟨hwf2.2, rfl⟩
      · rw [countTerm_logPhase "REFLECT" _ rfl, countTerm_logPhase "OBSERVE" _ rfl]
        rcases hls3 with rfl | ⟨nm, rfl⟩
        · rw [countTerm_logPhase "PLAN" _ rfl]
          exact hcount
        · rw [countTerm_logPhase "ACT" _ rfl]
          have : countTerm (traceTool "ACT" iter nm (logPhase "PLAN" l1)).logs
              = countTerm (logPhase "PLAN" l1).logs := rfl
          rw [this, countTerm_logPhase "PLAN" _ rfl]
          exact hcount
      · intro t ht
        simp only [logPhase] at ht
        rcases hls3 with rfl | ⟨nm, rfl⟩
        · simp only [logPhase] at ht
          exact htr t ht
        · simp only [logPhase, traceTool] at ht
          rcases List.mem_append.mp ht with h1 | h2
          · exact htr t h1
          · exact Or.inr (by rw [List.mem_singleton.mp h2])

/-- As long as the planning LLM keeps producing non-terminal dict plans
and tool implementations return well-formed results, the loop runs
through `k` further iterations: one PLAN invocation each, no terminal log
entries, traces only within those iterations, and a well-formed context
throughout. -/
theorem runLoop_reach (env : AgentEnv) (goal uid : List Char)
    (himpl : ∀ nm a r, env.impl nm a = Except.ok r → wfToolResult r = true) :
    ∀ (k remaining iter : ℕ) (ctx : Ctx) (ls : LogState) (plans : ℕ),
      k ≤ remaining →
      (∀ n, iter < n → n ≤ iter + k →
        nonTerminalPlan (step_plan (env.llmPlan n)) = true) →
      wfCtx ctx = true →
      ∃ ctx2 ls2, runLoop (stepExecOf env) goal uid remaining iter ctx ls plans
          = runLoop (stepExecOf env) goal uid (remaining - k) (iter + k) ctx2 ls2
              (plans + k)
        ∧ wfCtx ctx2 = true
        ∧ countTerm ls2.logs = countTerm ls.logs
        ∧ (∀ t ∈ ls2.toolTrace,
            t ∈ ls.toolTrace ∨ (iter < t.2.1 ∧ t.2.1 ≤ iter + k)) := by
  intro k
  induction k with
  | zero =>
    intro remaining iter ctx ls plans hk hplans hctx
    exact ⟨ctx, ls, by simp, hctx, rfl, fun t ht => Or.inl ht⟩
  | succ k ih =>
    intro remaining iter ctx ls plans hk hplans hctx
    obtain ⟨r2, hr2⟩ : ∃ r2, remaining = r2 + 1 := ⟨remaining - 1, by omega⟩
    subst hr2
    obtain ⟨c2, l2, hIter, hwf2, hcnt2, htr2⟩ :=
      runIter_cont env goal uid (iter + 1) ctx ls
        (hplans (iter + 1) (by omega) (by omega)) himpl hctx
    obtain ⟨ctx2, ls2, hrest, hwf3, hcnt3, htr3⟩ :=
      ih r2 (iter + 1) c2 l2 (plans + 1) (by omega)
        (fun n h1 h2 => hplans n (by omega) (by omega)) hwf2
    refine ⟨ctx2, ls2, ?_, hwf3, hcnt3.trans hcnt2, ?_⟩
    · have e1 : r2 + 1 - (k + 1) = r2 - k := by omega
      have e2 : iter + (k + 1) = iter + 1 + k := by omega
      have e3 : plans + (k + 1) = plans + 1 + k := by omega
      rw [e1, e2, e3]
      calc runLoop (stepExecOf env) goal uid (r2 + 1) iter ctx ls plans
          = runLoop (stepExecOf env) goal uid r2 (iter + 1) c2 l2 (plans + 1) := by
            conv_lhs => unfold runLoop
            rw [hIter]
        _ = runLoop (stepExecOf env) goal uid (r2 - k) (iter + 1 + k) ctx2 ls2
              (plans + 1 + k) := hrest
    · intro t ht
      rcases htr3 t ht with hin | ⟨hlt, hle⟩
      · rcases htr2 t hin with hin2 | heq
        · exact Or.inl hin2
        · exact Or.inr ⟨by omega, by omega⟩
      · exact Or.inr ⟨by omega, by omega⟩

/-- `take` preserves `all`. -/
theorem all_take {α : Type} (p : α → Bool) (l : List α) (n : ℕ)
    (h : l.all p = true) : (l.take n).all p = true := by
  rw [List.all_eq_true] at h ⊢
  intro x hx
  exact h x (List.mem_of_mem_take hx)

/-- Lookup skips an inserted binding with a different key. -/
theorem alookup_ainsert_ne (k1 k2 : List Char) (v : Json)
    (l : List (List Char × Json)) (h : k2 ≠ k1) :
    alookup k1 (ainsert k2 v l) = alookup k1 l := by
  induction l with
  | nil => simp [ainsert, alookup, h]
  | cons a t ih =>
    rcases a with ⟨k3, v3⟩
    by_cases h3 : k3 = k2
    · subst h3
      simp [ainsert, alookup, h]
    · simp only [ainsert, alookup, if_neg h3]
      by_cases h4 : k3 = k1
      · simp [h4]
      · simp [h4, ih]

/-- On well-formed history entries the search-iteration scan cannot
raise. -/
theorem searchIterations_ok (hist : List Json) (h : hist.all wfHist = true) :
    ∃ its, searchIterations hist = Except.ok its := by
  unfold searchIterations
  suffices core : ∀ acc, ∃ its, hist.foldlM (fun acc h => do
      let t ← pyGet h "tool"
      if optIsStr t "search-content" then do
        let it ← pyGetItem h "iteration"
        pure (acc ++ [it])
      else pure acc) acc = Except.ok its from core []
  induction hist with
  | nil => exact fun acc => ⟨acc, rfl⟩
  | cons a t ih =>
    rw [List.all_cons, Bool.and_eq_true] at h
    obtain ⟨ha, ht⟩ := h
    intro acc
    cases a with
    | obj fa =>
      rw [List.foldlM_cons]
      simp only [wfHist] at ha
      rcases e : alookup (chars "iteration") fa with _ | v
      · rw [e] at ha
        exact Bool.noConfusion ha
      · have e2 : alookup ("iteration".toList) fa = some v := e
        by_cases hs : optIsStr (alookup ("tool".toList) fa) "search-content" = true
        · simp only [pyGet, pyGetItem, ok_bind, hs, if_true, ite_true, e2]
          exact ih ht (acc ++ [v])
        · simp only [pyGet, pyGetItem, ok_bind,
            Bool.not_eq_true] at hs
          simp only [pyGet, ok_bind, hs, Bool.false_eq_true, if_false, ite_false]
          exact ih ht acc
    | null => exact Bool.noConfusion ha
    | bool b => exact Bool.noConfusion ha
    | num n => exact Bool.noConfusion ha
    | str s2 => exact Bool.noConfusion ha
    | arr l2 => exact Bool.noConfusion ha

/-- On a well-formed search item the citation builder cannot raise. -/
theorem mkSource_ok (r : Json) (h : wfSearchItem r = true) :
    ∃ o, mkSource r = Except.ok o := by
  cases r with
  | obj f =>
    simp only [wfSearchItem] at h
    unfold mkSource
    dsimp only
    rcases e : alookup (chars "snippet") f with _ | v
    · have e3 : objGetD f "snippet" (jstr "") = jstr "" := by
        unfold objGetD
        rw [show alookup ("snippet".toList) f = none from e]
        rfl
      rw [e3]
      exact ⟨_, rfl⟩
    · rw [e] at h
      cases v with
      | str s2 =>
        have e3 : objGetD f "snippet" (jstr "") = Json.str s2 := by
          unfold objGetD
          rw [show alookup ("snippet".toList) f = some (Json.str s2) from e]
          rfl
        rw [e3]
        exact ⟨_, rfl⟩
      | null => exact Bool.noConfusion h
      | bool b => exact Bool.noConfusion h
      | num n => exact Bool.noConfusion h
      | arr l2 => exact Bool.noConfusion h
      | obj f2 => exact Bool.noConfusion h
  | null => exact ⟨none, rfl⟩
  | bool b => exact ⟨none, rfl⟩
  | num n => exact ⟨none, rfl⟩
  | str s2 => exact ⟨none, rfl⟩
  | arr l2 => exact ⟨none, rfl⟩

/-- On well-formed search items the source-extraction fold cannot
raise. -/
theorem sources_fold_ok (rs : List Json) (h : rs.all wfSearchItem = true) :
    ∀ acc : List Json, ∃ out, rs.foldlM (fun acc r => do
      match (← mkSource r) with
      | some src => pure (acc ++ [src])
      | none => pure acc) acc = Except.ok out := by
  induction rs with
  | nil => exact fun acc => ⟨acc, rfl⟩
  | cons a t ih =>
    rw [List.all_cons, Bool.and_eq_true] at h
    intro acc
    obtain ⟨o, ho⟩ := mkSource_ok a h.1
    rw [List.foldlM_cons]
    simp only [ho, ok_bind]
    cases o with
    | some src => exact ih h.2 (acc ++ [src])
    | none => exact ih h.2 acc

/-- On a well-formed context, `generate_partial_result` never raises; and
if every successfully parsed synthesis is a dict carrying
`status: "partial"` (in particular whenever the LLM call or the parse
fails, via the fallback), the returned output carries
`status: "partial"`. -/
theorem genPartial_ok (env : AgentEnv) (ctx : Ctx) (ls : LogState)
    (hctx : wfCtx ctx = true)
    (hsynth : ∀ f, partialParsed env = Except.ok (Json.obj f) →
      alookup (chars "status") f = some (jstr "partial")) :
    ∃ out ls2, generate_partial_result env ctx ls = (Except.ok out, ls2) ∧
      jget out "status" Json.null = jstr "partial" := by
  unfold wfCtx at hctx
  rw [Bool.and_eq_true] at hctx
  obtain ⟨hsr, hhist⟩ := hctx
  obtain ⟨its, hits⟩ := searchIterations_ok ctx.iteration_history hhist
  obtain ⟨srcs, hsrcs⟩ := sources_fold_ok ((ctx.search_results.getD []).take 10)
    (all_take wfSearchItem _ 10 hsr) []
  unfold generate_partial_result
  rw [hits]
  try dsimp only
  rw [hsrcs]
  try dsimp only
  cases henv : env.llmPartial with
  | error e =>
    refine ⟨_, _, rfl, ?_⟩
    rfl
  | ok txt =>
    try dsimp only
    cases hp : parse_json_response (pyStrip txt) with
    | error e =>
      try dsimp only
      exact ⟨_, _, rfl, rfl⟩
    | ok j =>
      try dsimp only
      cases j with
      | obj fj =>
        have hpp : partialParsed env = Except.ok (Json.obj fj) := by
          unfold partialParsed
          rw [henv]
          exact hp
        have hst := hsynth fj hpp
        refine ⟨_, _, rfl, ?_⟩
        unfold jget
        dsimp only
        unfold objGetD
        rw [alookup_ainsert_ne ("status".toList) (chars "search_iterations")
          (Json.arr its) (ainsert (chars "sources") (Json.arr (List.take 10 srcs)) fj)
          (by decide)]
        rw [alookup_ainsert_ne ("status".toList) (chars "sources")
          (Json.arr (List.take 10 srcs)) fj (by decide)]
        rw [show alookup ("status".toList) fj = some (jstr "partial") from hst]
        rfl
      | null => exact ⟨_, _, rfl, rfl⟩
      | bool b => exact ⟨_, _, rfl, rfl⟩
      | num n => exact ⟨_, _, rfl, rfl⟩
      | str s2 => exact ⟨_, _, rfl, rfl⟩
      | arr l2 => exact ⟨_, _, rfl, rfl⟩

/-- ACT adds no terminal log entry, whatever the plan. -/
theorem countTerm_exec_act (env : AgentEnv) (p : Json) (iter : ℕ) (ls : LogState) :
    countTerm (exec_act env p iter ls).2.logs = countTerm ls.logs := by
  cases p with
  | obj fields =>
    simp only [exec_act]
    by_cases ha : optIsStr (alookup (chars "action_type") fields) "TOOL_CALL" = true
    · rw [if_neg (by simp [ha])]
      rcases he : execute_tool env.impl ((alookup (chars "tool") fields).getD Json.null)
          ((alookup (chars "args") fields).getD (Json.obj [])) with e | r <;>
        simp [countTerm, logPhase, traceTool, List.countP_append,
          List.countP_cons, isTerm]
    · rw [if_pos (by simpa using ha)]
  | null => rfl
  | bool b => rfl
  | num n => rfl
  | str s2 => rfl
  | arr l2 => rfl

/-- OBSERVE adds no terminal log entry. -/
theorem countTerm_exec_observe (p r : Json) (iter : ℕ) (ls : LogState) :
    countTerm (exec_observe p r iter ls).2.logs = countTerm ls.logs := by
  unfold exec_observe
  repeat' split
  all_goals simp [countTerm, logPhase, List.countP_append, List.countP_cons, isTerm]

/-- REFLECT adds no terminal log entry. -/
theorem countTerm_exec_reflect (env : AgentEnv) (p r : Json) (iter : ℕ)
    (ls : LogState) :
    countTerm (exec_reflect env p r iter ls).2.logs = countTerm ls.logs := by
  unfold exec_reflect
  repeat' split
  all_goals simp [countTerm, logPhase, List.countP_append, List.countP_cons, isTerm]

/-- For the concrete executor, one loop iteration adds exactly one
terminal log entry when it returns mid-loop (via a handler) and none
otherwise. -/
theorem runIter_concrete_countTerm (env : AgentEnv) (goal uid : List Char)
    (iter : ℕ) (ctx : Ctx) (ls : LogState) :
    (∀ r ls2 p, runIter (stepExecOf env) goal uid iter ctx ls
        = (IterOut.ret r, ls2, p) →
      countTerm r.logs = countTerm ls.logs + 1) ∧
    (∀ c ls2 p, runIter (stepExecOf env) goal uid iter ctx ls
        = (IterOut.cont c, ls2, p) →
      countTerm ls2.logs = countTerm ls.logs) ∧
    (∀ e ls2 p, runIter (stepExecOf env) goal uid iter ctx ls
        = (IterOut.raised e, ls2, p) →
      countTerm ls2.logs = countTerm ls.logs) := by
  obtain ⟨c1, l1, hS, hcnt1⟩ : ∃ c1 l1,
      (if iter = 1 then (stepExecOf env).sense uid ctx iter ls
        else (Except.ok ctx, ls)) = (Except.ok c1, l1) ∧
      countTerm l1.logs = countTerm ls.logs := by
    by_cases hiter : iter = 1
    · rcases hse : exec_sense env uid ctx iter ls with ⟨c1, l1⟩
      have hf := sense_fields env uid ctx iter ls
      rw [hse] at hf
      dsimp only at hf
      refine ⟨c1, l1, by rw [if_pos hiter]; simp [stepExecOf, hse], ?_⟩
      rw [hf.2.2]
      exact countTerm_logPhase "SENSE" _ rfl
    · exact ⟨ctx, ls, by rw [if_neg hiter], rfl⟩
  suffices key : (match runIter (stepExecOf env) goal uid iter ctx ls with
      | (IterOut.ret r, _, _) => countTerm r.logs = countTerm ls.logs + 1
      | (IterOut.cont _, ls2, _) => countTerm ls2.logs = countTerm ls.logs
      | (IterOut.raised _, ls2, _) => countTerm ls2.logs = countTerm ls.logs) by
    refine ⟨?_, ?_, ?_⟩ <;> intro x ls2 p h <;>
      (have hk := key; rw [h] at hk; exact hk)
  have hplancnt : countTerm (logPhase "PLAN" l1).logs = countTerm ls.logs := by
    rw [countTerm_logPhase "PLAN" _ rfl]
    exact hcnt1
  unfold runIter
  rw [hS]
  dsimp only [stepExecOf, exec_plan]
  rcases hA : pyGet (step_plan (env.llmPlan iter)) "action_type" with e | a
  · exact hplancnt
  · try dsimp only
    by_cases hC : optIsStr a "COMPLETE" = true
    · rw [if_pos hC]
      show countTerm (handle_completion (step_plan (env.llmPlan iter)) iter
        (logPhase "PLAN" l1)).1.logs = countTerm ls.logs + 1
      have e1 : (handle_completion (step_plan (env.llmPlan iter)) iter
            (logPhase "PLAN" l1)).1.logs
          = (logPhase "COMPLETE" (logPhase "PLAN" l1)).logs := rfl
      rw [e1, countTerm_logPhase_term "COMPLETE" _ rfl, hplancnt]
    rw [if_neg hC]
    by_cases hK : optIsStr a "CLARIFY" = true
    · rw [if_pos hK]
      show countTerm (handle_clarification (step_plan (env.llmPlan iter)) iter
        (logPhase "PLAN" l1)).1.logs = countTerm ls.logs + 1
      have e1 : (handle_clarification (step_plan (env.llmPlan iter)) iter
            (logPhase "PLAN" l1)).1.logs
          = (logPhase "CLARIFY" (logPhase "PLAN" l1)).logs := rfl
      rw [e1, countTerm_logPhase_term "CLARIFY" _ rfl, hplancnt]
    rw [if_neg hK]
    by_cases hP : optIsStr a "PLAN_APPROVAL" = true
    · rw [if_pos hP]
      show countTerm (handle_plan_approval (step_plan (env.llmPlan iter)) iter
        (logPhase "PLAN" l1)).1.logs = countTerm ls.logs + 1
      have e1 : (handle_plan_approval (step_plan (env.llmPlan iter)) iter
            (logPhase "PLAN" l1)).1.logs
          = (logPhase "PLAN_APPROVAL" (logPhase "PLAN" l1)).logs := rfl
      rw [e1, countTerm_logPhase_term "PLAN_APPROVAL" _ rfl, hplancnt]
    rw [if_neg hP]
    rcases hact : exec_act env (step_plan (env.llmPlan iter)) iter
        (logPhase "PLAN" l1) with ⟨ares, ls3⟩
    have hc3 : countTerm ls3.logs = countTerm ls.logs := by
      have := countTerm_exec_act env (step_plan (env.llmPlan iter)) iter
        (logPhase "PLAN" l1)
      rw [hact] at this
      exact this.trans hplancnt
    cases ares with
    | error e => exact hc3
    | ok result =>
      try dsimp
      rcases hobs : exec_observe (step_plan (env.llmPlan iter)) result iter ls3
        with ⟨ores, ls4⟩
      have hc4 : countTerm ls4.logs = countTerm ls.logs := by
        have := countTerm_exec_observe (step_plan (env.llmPlan iter)) result iter ls3
        rw [hobs] at this
        exact this.trans hc3
      cases ores with
      | error e => exact hc4
      | ok u =>
        try dsimp
        cases hacc2 : accumSearch (step_plan (env.llmPlan iter)) result c1 with
        | error e => exact hc4
        | ok ctx2 =>
          try dsimp
          rcases hrefl : exec_reflect env (step_plan (env.llmPlan iter)) result iter
            ls4 with ⟨rres, ls5⟩
          have hc5 : countTerm ls5.logs = countTerm ls.logs := by
            have := countTerm_exec_reflect env (step_plan (env.llmPlan iter))
              result iter ls4
            rw [hrefl] at this
            exact this.trans hc4
          cases rres with
          | error e => exact hc5
          | ok refl2 => exact hc5

/-- The partial-result generation adds no terminal log entry. -/
theorem countTerm_genPartial (env : AgentEnv) (ctx : Ctx) (ls : LogState) :
    countTerm (generate_partial_result env ctx ls).2.logs = countTerm ls.logs := by
  unfold generate_partial_result
  repeat' split
  all_goals simp [countTerm, logPhase, List.countP_append, List.countP_cons, isTerm]

/-- Over a whole concrete-executor loop run, an in-loop return carries
exactly one more terminal log entry than the starting state, while
falling through or raising adds none. -/
theorem runLoop_concrete_countTerm (env : AgentEnv) (goal uid : List Char) :
    ∀ (remaining iter : ℕ) (ctx : Ctx) (ls : LogState) (plans : ℕ),
      (∀ r it l p, runLoop (stepExecOf env) goal uid remaining iter ctx ls plans
          = (LoopExit.ret r, it, l, p) →
        countTerm r.logs = countTerm ls.logs + 1) ∧
      (∀ c it l p, runLoop (stepExecOf env) goal uid remaining iter ctx ls plans
          = (LoopExit.fell c, it, l, p) →
        countTerm l.logs = countTerm ls.logs) ∧
      (∀ e it l p, runLoop (stepExecOf env) goal uid remaining iter ctx ls plans
          = (LoopExit.raised e, it, l, p) →
        countTerm l.logs = countTerm ls.logs) := by
  intro remaining
  induction remaining with
  | zero =>
    intro iter ctx ls plans
    refine ⟨?_, ?_, ?_⟩ <;> intro x it l p h <;>
      simp only [runLoop, Prod.mk.injEq, reduceCtorEq, false_and, and_false,
        LoopExit.fell.injEq] at h
    obtain ⟨h1, h2, h3, h4⟩ := h
    subst h3
    rfl
  | succ n ih =>
    intro iter ctx ls plans
    have facts := runIter_concrete_countTerm env goal uid (iter + 1) ctx ls
    rcases hR : runIter (stepExecOf env) goal uid (iter + 1) ctx ls
      with ⟨out, ls1, q⟩
    refine ⟨?_, ?_, ?_⟩
    · intro r it l p h
      unfold runLoop at h
      rw [hR] at h
      cases out with
      | ret r2 =>
        simp only [Prod.mk.injEq, LoopExit.ret.injEq] at h
        obtain ⟨h1, h2, h3, h4⟩ := h
        subst h1 h3
        exact facts.1 _ _ _ hR
      | raised e => simp at h
      | cont c1 =>
        exact ((ih (iter + 1) c1 ls1 (plans + q)).1 _ _ _ _ h).trans
          (by rw [facts.2.1 c1 ls1 q hR])
    · intro c it l p h
      unfold runLoop at h
      rw [hR] at h
      cases out with
      | ret r2 => simp at h
      | raised e => simp at h
      | cont c1 =>
        exact ((ih (iter + 1) c1 ls1 (plans + q)).2.1 _ _ _ _ h).trans
          (facts.2.1 _ _ _ hR)
    · intro e it l p h
      unfold runLoop at h
      rw [hR] at h
      cases out with
      | ret r2 => simp at h
      | raised e2 =>
        simp only [Prod.mk.injEq, LoopExit.raised.injEq] at h
        obtain ⟨h1, h2, h3, h4⟩ := h
        subst h3
        exact facts.2.2 _ _ _ hR
      | cont c1 =>
        exact ((ih (iter + 1) c1 ls1 (plans + q)).2.2 _ _ _ _ h).trans
          (facts.2.1 _ _ _ hR)

/-- C1 — counterexample to the unconditional part 2: with a planning LLM
that always answers the valid JSON list `[1, 2]`, every parsed plan lacks
a terminal `action_type`, yet with `max_iterations = 2` the run performs
only 1 PLAN invocation and ends with status `failed` (the non-dict plan
raises `AttributeError` at the `plan.get` terminal-action check), not
`timeout` after 2 PLAN invocations. -/
theorem run_iteration_budget_failure :
    (∀ n, step_plan (envList.llmPlan n) = Json.arr [Json.num 1, Json.num 2]) ∧
    (run (stepExecOf envList) (chars "g") (chars "u") 2).1.status = "failed" ∧
    (run (stepExecOf envList) (chars "g") (chars "u") 2).2.2 = 1 :=
  ⟨fun _ => rfl, rfl, rfl⟩

/-- C1 (amended): every run performs at most `N` PLAN invocations (for
any executor behaviour); with the concrete executor exactly one terminal
COMPLETE/CLARIFY/PLAN_APPROVAL/ERROR entry is logged per run; and when
every LLM plan parses to a dict with a non-terminal action type, tool
implementations return well-formed results, and the partial synthesis
(when it parses to a dict) carries `status: "partial"`, the run performs
exactly `N` PLAN invocations and returns status `timeout` with an output
carrying `status: "partial"`. -/
theorem agent_run_iteration_budget :
    (∀ (ex : StepExec) (goal uid : List Char) (N : ℕ),
      (run ex goal uid N).2.2 ≤ N) ∧
    (∀ (env : AgentEnv) (goal uid : List Char) (N : ℕ),
      countTerm (run (stepExecOf env) goal uid N).1.logs = 1) ∧
    (∀ (env : AgentEnv) (goal uid : List Char) (N : ℕ),
      (∀ n, nonTerminalPlan (step_plan (env.llmPlan n)) = true) →
      (∀ nm a r, env.impl nm a = Except.ok r → wfToolResult r = true) →
      (∀ f, partialParsed env = Except.ok (Json.obj f) →
        alookup (chars "status") f = some (jstr "partial")) →
      (run (stepExecOf env) goal uid N).1.status = "timeout" ∧
      (run (stepExecOf env) goal uid N).2.2 = N ∧
      jget (run (stepExecOf env) goal uid N).1.output "status" Json.null
        = jstr "partial") := by
  refine ⟨?_, ?_, ?_⟩
  · intro ex goal uid N
    have hp := runLoop_plans_le ex goal uid N 0 (initCtx uid) initLog 0
    unfold run
    rcases hL : runLoop ex goal uid N 0 (initCtx uid) initLog 0 with ⟨exit, it, l, p⟩
    rw [hL] at hp
    simp only [Nat.zero_add] at hp
    cases exit with
    | ret r => exact hp
    | raised e => exact hp
    | fell c =>
      rcases hT : ex.genPartial goal c l with ⟨g, l2⟩
      cases g with
      | ok out => simp [handle_timeout, hT]; exact hp
      | error e => simp [handle_timeout, hT, handle_error]; exact hp
  · intro env goal uid N
    have facts := runLoop_concrete_countTerm env goal uid N 0 (initCtx uid) initLog 0
    unfold run
    rcases hL : runLoop (stepExecOf env) goal uid N 0 (initCtx uid) initLog 0
      with ⟨exit, it, l, p⟩
    cases exit with
    | ret r =>
      have := facts.1 _ _ _ _ hL
      simpa [countTerm, initLog] using this
    | raised e =>
      have h0 := facts.2.2 _ _ _ _ hL
      have h1 : (handle_error e it l).1.logs = (logPhase "ERROR" l).logs := rfl
      simp only [h1]
      rw [countTerm_logPhase_term "ERROR" _ rfl, h0]
      rfl
    | fell c =>
      have h0 := facts.2.1 _ _ _ _ hL
      rcases hT : generate_partial_result env c l with ⟨g, l2⟩
      have h2 : countTerm l2.logs = countTerm l.logs := by
        have := countTerm_genPartial env c l
        rw [hT] at this
        exact this
      have hTT : (stepExecOf env).genPartial goal c l = (g, l2) := hT
      cases g with
      | ok out =>
        have h3 : handle_timeout (stepExecOf env) goal c it l
            = (Except.ok { output := out,
                           logs := (logPhase "COMPLETE" l2).logs,
                           iteration_count := it, status := "timeout",
                           session_id := "session" }, logPhase "COMPLETE" l2) := by
          unfold handle_timeout
          rw [hTT]
        try dsimp
        rw [h3]
        show countTerm (logPhase "COMPLETE" l2).logs = 1
        rw [countTerm_logPhase_term "COMPLETE" _ rfl, h2, h0]
        rfl
      | error e =>
        have h3 : handle_timeout (stepExecOf env) goal c it l
            = (Except.error e, l2) := by
          unfold handle_timeout
          rw [hTT]
        try dsimp
        rw [h3]
        show countTerm (logPhase "ERROR" l2).logs = 1
        rw [countTerm_logPhase_term "ERROR" _ rfl, h2, h0]
        rfl
  · intro env goal uid N hplans himpl hsynth
    obtain ⟨ctx2, ls2, hEq, hwf2, hcnt2, htr2⟩ :=
      runLoop_reach env goal uid himpl N N 0 (initCtx uid) initLog 0 le_rfl
        (fun n h1 h2 => hplans n) rfl
    have h0 : runLoop (stepExecOf env) goal uid N 0 (initCtx uid) initLog 0
        = (LoopExit.fell ctx2, N, ls2, N) := by
      rw [hEq, Nat.sub_self, Nat.zero_add]
      rfl
    obtain ⟨out, ls3, hGp, hst⟩ := genPartial_ok env ctx2 ls2 hwf2 hsynth
    have hGp2 : (stepExecOf env).genPartial goal ctx2 ls2 = (Except.ok out, ls3) := hGp
    have h3 : handle_timeout (stepExecOf env) goal ctx2 N ls2
        = (Except.ok { output := out,
                       logs := (logPhase "COMPLETE" ls3).logs,
                       iteration_count := N, status := "timeout",
                       session_id := "session" }, logPhase "COMPLETE" ls3) := by
      unfold handle_timeout
      rw [hGp2]
    unfold run
    rw [h0]
    try dsimp
    rw [h3]
    exact ⟨rfl, rfl, hst⟩

/-- C1 — witness: a concrete environment whose plans always parse to the
non-terminal dict plan `{"action_type": "THINK"}` and whose partial
synthesis fails (so the fallback carries `status: "partial"`), run with
`max_iterations = 2`. -/
theorem agent_run_iteration_budget_witness :
    (run (stepExecOf envThink) (chars "g") (chars "u") 2).2.2 ≤ 2 ∧
    countTerm (run (stepExecOf envThink) (chars "g") (chars "u") 2).1.logs = 1 ∧
    ((run (stepExecOf envThink) (chars "g") (chars "u") 2).1.status = "timeout" ∧
     (run (stepExecOf envThink) (chars "g") (chars "u") 2).2.2 = 2 ∧
     jget (run (stepExecOf envThink) (chars "g") (chars "u") 2).1.output
       "status" Json.null = jstr "partial") :=
  ⟨agent_run_iteration_budget.1 (stepExecOf envThink) (chars "g") (chars "u") 2,
   agent_run_iteration_budget.2.1 envThink (chars "g") (chars "u") 2,
   agent_run_iteration_budget.2.2 envThink (chars "g") (chars "u") 2
     (fun _ => rfl)
     (fun nm a r h => by
       injection h with h2
       rw [← h2]
       rfl)
     (fun f h => by
       rw [show partialParsed envThink = Except.error "llm down" from rfl] at h
       exact Except.noConfusion h)⟩

/-- When the iteration's parsed plan is a dict with
`action_type: "PLAN_APPROVAL"`, the iteration returns through
`_handle_plan_approval` before the ACT phase: status `needs_approval`,
the exact approval output, and no tool trace beyond (possibly) the
first-iteration SENSE lookup. -/
theorem runIter_approval (env : AgentEnv) (goal uid : List Char) (iter : ℕ)
    (ctx : Ctx) (ls : LogState) (f : List (List Char × Json))
    (hPf : step_plan (env.llmPlan iter) = Json.obj f)
    (hat : alookup (chars "action_type") f = some (jstr "PLAN_APPROVAL")) :
    ∃ r ls2, runIter (stepExecOf env) goal uid iter ctx ls
        = (IterOut.ret r, ls2, 1) ∧
      r.status = "needs_approval" ∧
      r.output = Json.obj
        [(chars "research_plan", objGetD f "research_plan" (Json.obj [])),
         (chars "type", jstr "plan_approval_needed"),
         (chars "message", jstr "Web search requires your approval")] ∧
      r.iteration_count = iter ∧
      (∀ t ∈ ls2.toolTrace,
        t ∈ ls.toolTrace ∨ (t.1 = "SENSE" ∧ t.2.1 = iter ∧ iter = 1)) := by
  obtain ⟨c1, l1, hS, htr1⟩ : ∃ c1 l1,
      (if iter = 1 then (stepExecOf env).sense uid ctx iter ls
        else (Except.ok ctx, ls)) = (Except.ok c1, l1) ∧
      (∀ t ∈ l1.toolTrace,
        t ∈ ls.toolTrace ∨ (t.1 = "SENSE" ∧ t.2.1 = iter ∧ iter = 1)) := by
    by_cases hiter : iter = 1
    · rcases hse : exec_sense env uid ctx iter ls with ⟨c1, l1⟩
      have hf := sense_fields env uid ctx iter ls
      rw [hse] at hf
      dsimp only at hf
      refine ⟨c1, l1, by rw [if_pos hiter]; simp [stepExecOf, hse], ?_⟩
      rw [hf.2.2]
      intro t ht
      simp only [logPhase, traceTool] at ht
      rcases List.mem_append.mp ht with h1 | h2
      · exact Or.inl h1
      · have h3 := List.mem_singleton.mp h2
        rw [h3]
        exact Or.inr ⟨rfl, rfl, hiter⟩
    · exact ⟨ctx, ls, by rw [if_neg hiter], fun t ht => Or.inl ht⟩
  have hat2 : alookup ("action_type".toList) f = some (jstr "PLAN_APPROVAL") := hat
  have hC : optIsStr (alookup ("action_type".toList) f) "COMPLETE" = false := by
    rw [hat2]
    rfl
  have hK : optIsStr (alookup ("action_type".toList) f) "CLARIFY" = false := by
    rw [hat2]
    rfl
  have hP : optIsStr (alookup ("action_type".toList) f) "PLAN_APPROVAL" = true := by
    rw [hat2]
    rfl
  have key : runIter (stepExecOf env) goal uid iter ctx ls
      = (IterOut.ret (handle_plan_approval (Json.obj f) iter
            (logPhase "PLAN" l1)).1,
         (handle_plan_approval (Json.obj f) iter (logPhase "PLAN" l1)).2, 1) := by
    unfold runIter
    rw [hS]
    simp only [stepExecOf, exec_plan, hPf, pyGet, hC, hK, hP, Bool.false_eq_true,
      if_false, ite_false, if_true, ite_true]
  refine ⟨_, _, key, rfl, rfl, rfl, ?_⟩
  intro t ht
  exact htr1 t ht

/-- C9 — counterexample to "without executing any tool in that
iteration": when the approval plan arrives on iteration 1, the run still
ends `needs_approval` at iteration 1, but the trace shows the
`get-user-context` tool WAS executed during that iteration (by the SENSE
phase, before planning). -/
theorem plan_approval_sense_tool_executed :
    (run (stepExecOf envApprove1) (chars "g") (chars "u") 3).1.status
      = "needs_approval" ∧
    (run (stepExecOf envApprove1) (chars "g") (chars "u") 3).1.iteration_count = 1 ∧
    (run (stepExecOf envApprove1) (chars "g") (chars "u") 3).2.1.toolTrace
      = [("SENSE", 1, jstr "get-user-context")] := ⟨rfl, rfl, rfl⟩

/-- C9 (amended): if iterations before `k` keep producing non-terminal
dict plans over well-formed tools, and iteration `k`'s parsed plan is a
dict with `action_type: "PLAN_APPROVAL"`, then run() terminates with
status `needs_approval` at iteration `k`, with output
`{research_plan: <the plan's research_plan>, type: "plan_approval_needed",
message: "Web search requires your approval"}`, and every tool executed
during iteration `k` is the SENSE-phase `get-user-context` lookup (which
only happens for `k = 1`): in particular the ACT phase never runs and the
planned tool is never executed in that iteration. -/
theorem plan_approval_halts_run (env : AgentEnv) (goal uid : List Char)
    (N k : ℕ) (f : List (List Char × Json))
    (hk1 : 1 ≤ k) (hkN : k ≤ N)
    (hplans : ∀ n, 1 ≤ n → n < k →
      nonTerminalPlan (step_plan (env.llmPlan n)) = true)
    (himpl : ∀ nm a r, env.impl nm a = Except.ok r → wfToolResult r = true)
    (hPf : step_plan (env.llmPlan k) = Json.obj f)
    (hat : alookup (chars "action_type") f = some (jstr "PLAN_APPROVAL")) :
    (run (stepExecOf env) goal uid N).1.status = "needs_approval" ∧
    (run (stepExecOf env) goal uid N).1.output = Json.obj
      [(chars "research_plan", objGetD f "research_plan" (Json.obj [])),
       (chars "type", jstr "plan_approval_needed"),
       (chars "message", jstr "Web search requires your approval")] ∧
    (run (stepExecOf env) goal uid N).1.iteration_count = k ∧
    (∀ ph nm, (ph, k, nm) ∈ (run (stepExecOf env) goal uid N).2.1.toolTrace →
      ph = "SENSE") := by
  obtain ⟨ctx2, ls2, hEq, hwf2, hcnt2, htr2⟩ :=
    runLoop_reach env goal uid himpl (k - 1) N 0 (initCtx uid) initLog 0
      (by omega) (fun n h1 h2 => hplans n (by omega) (by omega)) rfl
  have hk' : k - 1 + 1 = k := by omega
  have hPf2 : step_plan (env.llmPlan (k - 1 + 1)) = Json.obj f := by
    rw [hk']
    exact hPf
  obtain ⟨r, ls3, hIter, hst, hout, hic, htr3⟩ :=
    runIter_approval env goal uid (k - 1 + 1) ctx2 ls2 f hPf2 hat
  have hrem : N - (k - 1) = (N - k) + 1 := by omega
  have hstep : runLoop (stepExecOf env) goal uid (N - (k - 1)) (0 + (k - 1))
      ctx2 ls2 (0 + (k - 1))
      = (LoopExit.ret r, (k - 1) + 1, ls3, (k - 1) + 1) := by
    rw [Nat.zero_add, hrem]
    conv_lhs => unfold runLoop
    rw [hIter]
  have hrun : run (stepExecOf env) goal uid N = (r, ls3, (k - 1) + 1) := by
    unfold run
    rw [hEq, hstep]
  rw [hrun]
  refine ⟨hst, hout, by rw [hic, hk'], ?_⟩
  intro ph nm hmem
  rcases htr3 (ph, k, nm) hmem with hin | ⟨h1, h2, h3⟩
  · rcases htr2 (ph, k, nm) hin with hin2 | ⟨h4, h5⟩
    · cases hin2
    · exact absurd h5 (by simp only [Nat.zero_add]; omega)
  · exact h1

/-- C9 — witness: the environment that thinks on iteration 1 and asks for
plan approval on iteration 2, run with `max_iterations = 3`. -/
theorem plan_approval_halts_run_witness :
    (run (stepExecOf envApprove2) (chars "g") (chars "u") 3).1.status
      = "needs_approval" ∧
    (run (stepExecOf envApprove2) (chars "g") (chars "u") 3).1.iteration_count
      = 2 :=
  ⟨(plan_approval_halts_run envApprove2 (chars "g") (chars "u") 3 2
      [(chars "action_type", jstr "PLAN_APPROVAL"),
       (chars "research_plan", Json.obj [])]
      (by omega) (by omega)
      (fun n h1 h2 => by
        have h3 : n = 1 := by omega
        rw [h3]
        rfl)
      (fun nm a r h => by
        injection h with h2
        rw [← h2]
        rfl)
      rfl rfl).1,
   (plan_approval_halts_run envApprove2 (chars "g") (chars "u") 3 2
      [(chars "action_type", jstr "PLAN_APPROVAL"),
       (chars "research_plan", Json.obj [])]
      (by omega) (by omega)
      (fun n h1 h2 => by
        have h3 : n = 1 := by omega
        rw [h3]
        rfl)
      (fun nm a r h => by
        injection h with h2
        rw [← h2]
        rfl)
      rfl rfl).2.2.1⟩
